import Mathlib

/-!
# Bus expansion of netlist objects (`eeschema/netlist_object.cpp`)

A shallow embedding of `NETLIST_OBJECT`, of
`NETLIST_OBJECT::ConvertBusToNetListItems` / `NETLIST_OBJECT::fillBusVector`, of
`NETLIST_OBJECT::IsLabelConnected` and of the net name functions, and of
`NETCLASSES::Add` / `NETCLASSES::Find` (`pcbnew/netclass.cpp`).

Conventions of the embedding

* A C++ `long` has 64 bits and an `int` 32 bits.  Their values are `Int`s within the
  range of the type: the result of an operation on `long`s is taken modulo 2^64
  (`toLong`), and a `long` stored in the `int` field `m_Member` is taken modulo 2^32
  (`toInt`).  The integer fields that this file of the program only copies
  (`m_Flag`, the net codes, the end points) are kept as they are.
* `wxString` is `String`; `wxString << long` appends the decimal text, here
  `toString` of the `Int`.
* Objects are compared by value.  The list `aNetListItems` holds the objects
  other than `this`; `this` is passed and returned on its own.
* The functions that compare or follow pointers to netlist objects
  (`IsLabelConnected`, `SetNetNameCandidate`, `GetNetName`, `GetShortNetName`) work
  on an `ObjectStore`, in which a pointer is a handle.
* `SCH_CONNECTION` (the bus grammar) and `SCHEMATIC::GetBusAlias` are not part of
  this file of the program.  They are parameters of the embedding, gathered in
  `BusEnv`.
-/

namespace Netlist

/-- The kinds of a netlist object (`enum class NETLIST_ITEM`). -/
inductive NETLIST_ITEM where
  | ITEM_UNSPECIFIED
  | SEGMENT
  | BUS
  | JUNCTION
  | LABEL
  | HIERLABEL
  | GLOBLABEL
  | BUSLABELMEMBER
  | HIERBUSLABELMEMBER
  | GLOBBUSLABELMEMBER
  | SHEETBUSLABELMEMBER
  | SHEETLABEL
  | PINLABEL
  | PIN
  | NOCONNECT
  deriving DecidableEq

/-- The connection state of an object; only `UNCONNECTED` is named in this file of
the program, the other values are kept by their code. -/
inductive NET_CONNECTION where
  | UNCONNECTED
  | other (code : Nat)
  deriving DecidableEq

/-- The electrical type of a pin; only `PT_INPUT` is named in this file of the
program, the other values are kept by their code. -/
inductive ELECTRICAL_PINTYPE where
  | PT_INPUT
  | other (code : Nat)
  deriving DecidableEq

/-- A sheet path: the sequence of sheet instances from the root.  Modelled from the
spec: `operator==` of `SCH_SHEET_PATH` is not in this file of the program; a sheet
path is a value, compared by structural equality. -/
abbrev SCH_SHEET_PATH := List String

/-- The fields of `NETLIST_OBJECT`.  Pointers are handles (`none` is `NULL`). -/
structure NETLIST_OBJECT where
  m_Type : NETLIST_ITEM
  m_Comp : Option Nat
  m_Link : Option Nat
  m_Flag : Int
  m_SheetPath : SCH_SHEET_PATH
  m_SheetPathInclude : SCH_SHEET_PATH
  m_ElectricalPinType : ELECTRICAL_PINTYPE
  m_BusNetCode : Int
  m_Member : Int
  m_ConnectionType : NET_CONNECTION
  m_PinNum : String
  m_Label : String
  m_Start : Int × Int
  m_End : Int × Int
  m_netCode : Int
  m_netNameCandidate : Option Nat
  deriving DecidableEq

/-- The default constructor `NETLIST_OBJECT::NETLIST_OBJECT()`. -/
def NETLIST_OBJECT.new : NETLIST_OBJECT :=
  { m_Type := NETLIST_ITEM.ITEM_UNSPECIFIED
    m_Comp := none
    m_Link := none
    m_Flag := 0
    m_SheetPath := []
    m_SheetPathInclude := []
    m_ElectricalPinType := ELECTRICAL_PINTYPE.PT_INPUT
    m_BusNetCode := 0
    m_Member := 0
    m_ConnectionType := NET_CONNECTION.UNCONNECTED
    m_PinNum := ""
    m_Label := ""
    m_Start := (0, 0)
    m_End := (0, 0)
    m_netCode := 0
    m_netNameCandidate := none }

/-- What `ConvertBusToNetListItems` uses from outside its own file.

* `ParseBusVector` and `ParseBusGroup` are the static recognisers of
  `SCH_CONNECTION`: on a match they give the name and the member list they write
  to their out-arguments, on a mismatch they leave them alone.
* `GetBusAlias` is the alias directory of the schematic (the members of the alias
  of that name).  The program reaches the schematic through `m_Comp`; the objects the
  connectivity builder creates have it populated, and the embedding is of calls on such
  objects, all of one schematic.
* `VectorStart` and `VectorEnd` are what the local object `SCH_CONNECTION conn`
  answers.  `conn` is default-constructed in `ConvertBusToNetListItems`; the
  recognisers are called as static members on the label or on a member token and
  hand back a name and a member list only, so no call gives `conn` the range of a
  label; `conn.IsBusLabel` is a test of the label and leaves `conn` as it is.  The
  two values are therefore the same for every label and every member token: they are
  the range of a fresh connection, whatever that is.  The program reads them into
  `long`s: it reads `toLong` of the two values. -/
structure BusEnv where
  ParseBusVector : String → Option (String × List String)
  ParseBusGroup : String → Option (String × List String)
  GetBusAlias : String → Option (List String)
  VectorStart : Int
  VectorEnd : Int

/-- Modelled from the spec: `SCH_CONNECTION::IsBusLabel`, which is not in this file
of the program; `is_bus_label(text)` is true if either the vector form or the group
form matches. -/
def BusEnv.IsBusLabel (env : BusEnv) (aLabel : String) : Bool :=
  (env.ParseBusVector aLabel).isSome || (env.ParseBusGroup aLabel).isSome

/-- The largest `long`. -/
def LONG_MAX : Int := 9223372036854775807

/-- The `long` that an operation on `long`s gives: its exact result taken modulo 2^64
into the range from -2^63 to 2^63 - 1. -/
def toLong (x : Int) : Int :=
  (x + 9223372036854775808) % 18446744073709551616 - 9223372036854775808

/-- The `int` that takes a `long` (`m_Member = member`): the value taken modulo 2^32
into the range from -2^31 to 2^31 - 1. -/
def toInt (x : Int) : Int :=
  (x + 2147483648) % 4294967296 - 2147483648

/-- How a call of `ConvertBusToNetListItems` ended.  `InvalidBusLabel` and
`InvalidBusExpansion` are the two `wxCHECK_RET` exits; `unfinished` says that the call
has not returned: the loop over the members still had members to visit when the
iteration bound of the embedding was reached, or the call came to a loop of
`fillBusVector` that has no end.  The object and the list of an unfinished call are
those of the last turn of the loop over the members that was begun (of the entry to
the vector path, when the call has no such loop). -/
inductive BusStatus where
  | done
  | InvalidBusLabel
  | InvalidBusExpansion
  | unfinished
  deriving DecidableEq

/-- The object and the list as a call of `ConvertBusToNetListItems` leaves them. -/
structure BusResult where
  status : BusStatus
  self : NETLIST_OBJECT
  aNetListItems : List NETLIST_OBJECT
  deriving DecidableEq

/-- The loop `for( long member = aBegin; member <= aEnd; member++ )` of
`fillBusVector`, at most `turns` turns of it from the counter `member`: each turn
appends a copy of `self` with its label and member number overwritten, the member
number being the counter as the `int` field takes it; `member++` gives a `long`.  The
result is the list when the loop has ended, and `none` when the test `member <= aEnd`
still holds after `turns` turns. -/
def fillBusVectorLoop (self : NETLIST_OBJECT) (aName : String) (aEnd : Int) :
    Nat → Int → List NETLIST_OBJECT → Option (List NETLIST_OBJECT)
  | 0, member, aNetListItems => if member ≤ aEnd then none else some aNetListItems
  | turns + 1, member, aNetListItems =>
      if member ≤ aEnd then
        let item : NETLIST_OBJECT :=
          { self with m_Label := aName ++ toString member, m_Member := toInt member }
        fillBusVectorLoop self aName aEnd turns (toLong (member + 1)) (aNetListItems ++ [item])
      else some aNetListItems

/-- `NETLIST_OBJECT::fillBusVector`: the list after the call, and `none` when the
loop has no end.  The counter is a `long`: a loop that has not ended after 2^64 turns
has been at one value of the counter twice and does not end (with `aEnd` the largest
`long` the test `member <= aEnd` always holds).  `aOffset` is not used by the body. -/
def fillBusVector (self : NETLIST_OBJECT) (aNetListItems : List NETLIST_OBJECT)
    (aName : String) (aBegin aEnd : Int) (_aOffset : Int) : Option (List NETLIST_OBJECT) :=
  fillBusVectorLoop self aName aEnd 18446744073709551616 aBegin aNetListItems

/-- The reclassification at the head of `ConvertBusToNetListItems`; `none` is the
final `else` with `wxCHECK_RET( false, ... )`. -/
def busMemberType : NETLIST_ITEM → Option NETLIST_ITEM
  | NETLIST_ITEM.HIERLABEL => some NETLIST_ITEM.HIERBUSLABELMEMBER
  | NETLIST_ITEM.GLOBLABEL => some NETLIST_ITEM.GLOBBUSLABELMEMBER
  | NETLIST_ITEM.SHEETLABEL => some NETLIST_ITEM.SHEETBUSLABELMEMBER
  | NETLIST_ITEM.LABEL => some NETLIST_ITEM.BUSLABELMEMBER
  | _ => none

/-- The variables the loop over `bus_contents` works on.  `bus_contents` holds the
members from the iterator to the end of the `std::list`. -/
structure LoopState where
  self : NETLIST_OBJECT
  aNetListItems : List NETLIST_OBJECT
  bus_contents : List String
  member_offset : Int
  self_set : Bool
  deriving DecidableEq

/-- One turn of `for( const auto& bus_member : bus_contents )`, on the member
`bus_member` with `rest` after it in the list: the variables after the turn, and
`none` when the turn comes to a loop of `fillBusVector` that has no end.  `begin`,
`end` and `member_offset` are `long`s, `m_Member` is an `int`. -/
def busMemberStep (env : BusEnv) ( group_prefix : String) (st : LoopState)
    (bus_member : String) (rest : List String) : Option LoopState :=
  match env.ParseBusVector bus_member with
  | some (pfx, members) =>
      -- Nested bus vector inside a bus group
      let pfx := group_prefix ++ pfx
      let begin_ := toLong env.VectorStart
      let end_ := toLong env.VectorEnd
      if st.self_set = false then
        -- m_Member = ( begin++ ) + ( member_offset++ ); ...; begin++;
        let self1 : NETLIST_OBJECT :=
          { st.self with m_Label := members.headD "",
                         m_Member := toInt (toLong (begin_ + st.member_offset)) }
        let begin_ := toLong (begin_ + 1)
        let member_offset := toLong (st.member_offset + 1)
        let begin_ := toLong (begin_ + 1)
        match fillBusVector self1 st.aNetListItems pfx begin_ end_ member_offset with
        | some aNetListItems =>
            some
              { self := self1
                aNetListItems := aNetListItems
                bus_contents := rest
                member_offset :=
                  toLong (member_offset + toLong ((toLong (end_ - begin_)).natAbs : Int))
                self_set := true }
        | none => none
      else
        match fillBusVector st.self st.aNetListItems pfx begin_ end_ st.member_offset with
        | some aNetListItems =>
            some
              { self := st.self
                aNetListItems := aNetListItems
                bus_contents := rest
                member_offset :=
                  toLong (st.member_offset + toLong ((toLong (end_ - begin_)).natAbs : Int))
                self_set := st.self_set }
        | none => none
  | none =>
      match env.GetBusAlias bus_member with
      | some alias_members =>
          -- Nested alias inside a group: bus_contents.push_back( alias_member )
          some { st with bus_contents := rest ++ alias_members }
      | none =>
          if st.self_set = false then
            some
              { self := { st.self with m_Label := group_prefix ++ bus_member,
                                       m_Member := toInt st.member_offset }
                aNetListItems := st.aNetListItems
                bus_contents := rest
                member_offset := toLong (st.member_offset + 1)
                self_set := true }
          else
            let item : NETLIST_OBJECT :=
              { st.self with m_Label := group_prefix ++ bus_member,
                             m_Member := toInt st.member_offset }
            some
              { self := st.self
                aNetListItems := st.aNetListItems ++ [item]
                bus_contents := rest
                member_offset := toLong (st.member_offset + 1)
                self_set := st.self_set }

/-- The loop over `bus_contents`, at most `fuel` turns of it: the loop ends when no
member is left to visit; a turn that has no end leaves the call unfinished at every
bound. -/
def busLoop (env : BusEnv) ( group_prefix : String) : Nat → LoopState → BusResult
  | 0, st =>
      match st.bus_contents with
      | [] => { status := BusStatus.done, self := st.self, aNetListItems := st.aNetListItems }
      | _ :: _ =>
          { status := BusStatus.unfinished, self := st.self,
            aNetListItems := st.aNetListItems }
  | fuel + 1, st =>
      match st.bus_contents with
      | [] => { status := BusStatus.done, self := st.self, aNetListItems := st.aNetListItems }
      | bus_member :: rest =>
          match busMemberStep env group_prefix st bus_member rest with
          | some st1 => busLoop env group_prefix fuel st1
          | none =>
              { status := BusStatus.unfinished, self := st.self,
                aNetListItems := st.aNetListItems }

/-- The members and the name of the group: `alias || ParseBusGroup( m_Label, ... )`.
When the label is an alias, `ParseBusGroup` is not evaluated, `group_name` stays
empty and `bus_contents_vec` gets the members of the alias. -/
def busGroupOf (env : BusEnv) (aLabel : String) : Option (String × List String) :=
  match env.GetBusAlias aLabel with
  | some alias_members => some ("", alias_members)
  | none => env.ParseBusGroup aLabel

/-- `NETLIST_OBJECT::ConvertBusToNetListItems`, with at most `fuel` turns of the loop
over the members.  `begin` and `end` are the `long`s that the fresh connection
answers. -/
def ConvertBusToNetListItems (env : BusEnv) (fuel : Nat) (self : NETLIST_OBJECT)
    (aNetListItems : List NETLIST_OBJECT) : BusResult :=
  if env.IsBusLabel self.m_Label = false then
    { status := BusStatus.InvalidBusLabel, self := self, aNetListItems := aNetListItems }
  else
    match busMemberType self.m_Type with
    | none =>
        { status := BusStatus.InvalidBusExpansion, self := self,
          aNetListItems := aNetListItems }
    | some memberType =>
        let self : NETLIST_OBJECT := { self with m_Type := memberType }
        match busGroupOf env self.m_Label with
        | some (group_name, bus_contents_vec) =>
            -- For named bus groups, like "USB{DP DM}"
            let group_prefix := if group_name ≠ "" then group_name ++ "." else ""
            busLoop env group_prefix fuel
              { self := self
                aNetListItems := aNetListItems
                bus_contents := bus_contents_vec
                member_offset := 0
                self_set := false }
        | none =>
            match env.ParseBusVector self.m_Label with
            | some (group_name, bus_contents_vec) =>
                let begin_ := toLong env.VectorStart
                let end_ := toLong env.VectorEnd
                let self1 : NETLIST_OBJECT :=
                  { self with m_Label := bus_contents_vec.headD "", m_Member := toInt begin_ }
                match fillBusVector self1 aNetListItems group_name (toLong (begin_ + 1)) end_ 0
                with
                | some items => { status := BusStatus.done, self := self1, aNetListItems := items }
                | none =>
                    { status := BusStatus.unfinished, self := self,
                      aNetListItems := aNetListItems }
            | none => { status := BusStatus.done, self := self, aNetListItems := aNetListItems }

/-! ## Connectivity of labels and net names

`IsLabelConnected`, `SetNetNameCandidate`, `GetNetName` and `GetShortNetName` compare
or follow pointers to netlist objects.  For them the objects live in an
`ObjectStore`, addressed by handles: a `NETLIST_OBJECT*` is a handle, and two
pointers are equal when the handles are. -/

/-- The netlist objects of one build, by handle. -/
abbrev ObjectStore := Nat → NETLIST_OBJECT

/-- `NETLIST_OBJECT::IsLabelType`. -/
def NETLIST_OBJECT.IsLabelType (o : NETLIST_OBJECT) : Bool :=
  o.m_Type = NETLIST_ITEM.LABEL || o.m_Type = NETLIST_ITEM.GLOBLABEL
    || o.m_Type = NETLIST_ITEM.HIERLABEL || o.m_Type = NETLIST_ITEM.BUSLABELMEMBER
    || o.m_Type = NETLIST_ITEM.GLOBBUSLABELMEMBER
    || o.m_Type = NETLIST_ITEM.HIERBUSLABELMEMBER || o.m_Type = NETLIST_ITEM.PINLABEL

/-- `NETLIST_OBJECT::IsLabelConnected`, called on the object at `this` with the
pointer `aNetItem`. -/
def IsLabelConnected (store : ObjectStore) (this aNetItem : Nat) : Bool :=
  if aNetItem = this then
    -- Don't compare the same net list object.
    false
  else
    let aType := (store this).m_Type
    let bt := (store aNetItem).m_Type
    if (aType = NETLIST_ITEM.HIERLABEL ∨ aType = NETLIST_ITEM.HIERBUSLABELMEMBER)
        ∧ (bt = NETLIST_ITEM.SHEETLABEL ∨ bt = NETLIST_ITEM.SHEETBUSLABELMEMBER) then
      if (store this).m_SheetPath = (store aNetItem).m_SheetPathInclude then true else false
    else if aType = NETLIST_ITEM.GLOBLABEL ∧ bt = NETLIST_ITEM.GLOBLABEL then
      if (store this).m_Label = (store aNetItem).m_Label then true else false
    else false

/-- `NETLIST_OBJECT::IsLabelGlobal`. -/
def NETLIST_OBJECT.IsLabelGlobal (o : NETLIST_OBJECT) : Bool :=
  o.m_Type = NETLIST_ITEM.PINLABEL || o.m_Type = NETLIST_ITEM.GLOBLABEL
    || o.m_Type = NETLIST_ITEM.GLOBBUSLABELMEMBER

/-- `NETLIST_OBJECT::IsLabelBusMemberType`. -/
def NETLIST_OBJECT.IsLabelBusMemberType (o : NETLIST_OBJECT) : Bool :=
  o.m_Type = NETLIST_ITEM.SHEETBUSLABELMEMBER || o.m_Type = NETLIST_ITEM.BUSLABELMEMBER
    || o.m_Type = NETLIST_ITEM.HIERBUSLABELMEMBER
    || o.m_Type = NETLIST_ITEM.GLOBBUSLABELMEMBER

/-- What the net names use from outside this file of the program.

* `PathHumanReadable` is `SCH_SHEET_PATH::PathHumanReadable`.
* `GetComponentParent` is `NETLIST_OBJECT::GetComponentParent`, declared in the
  header: the symbol that owns a pin, `NULL` for the other objects.
* `GetRef` is `SCH_COMPONENT::GetRef`, the reference of a symbol within a sheet
  path. -/
structure NameEnv where
  PathHumanReadable : SCH_SHEET_PATH → String
  GetComponentParent : NETLIST_OBJECT → Option Nat
  GetRef : Nat → SCH_SHEET_PATH → String

/-- `NETLIST_OBJECT::GetShortNetName`, called on the object at `this`. -/
def GetShortNetName (names : NameEnv) (store : ObjectStore) (this : Nat) : String :=
  match (store this).m_netNameCandidate with
  | none => ""
  | some candidate =>
      if (store candidate).m_Type = NETLIST_ITEM.PIN then
        match names.GetComponentParent (store candidate) with
        | some link =>
            -- Should be always true
            "Net-(" ++ names.GetRef link (store candidate).m_SheetPath ++ "-Pad"
              ++ (store candidate).m_PinNum ++ ")"
        | none => ""
      else (store candidate).m_Label

/-- `NETLIST_OBJECT::GetNetName`, called on the object at `this`. -/
def GetNetName (names : NameEnv) (store : ObjectStore) (this : Nat) : String :=
  match (store this).m_netNameCandidate with
  | none => ""
  | some candidate =>
      if (store candidate).m_Type = NETLIST_ITEM.PIN then GetShortNetName names store this
      else
        let netName :=
          if (store candidate).IsLabelGlobal = false then
            -- usual net name, prefix it by the sheet path
            names.PathHumanReadable (store candidate).m_SheetPath
          else ""
        netName ++ (store candidate).m_Label

/-- `NETLIST_OBJECT::SetNetNameCandidate`, called on the object at `this` with the
pointer `aCandidate`: the store after the call. -/
def SetNetNameCandidate (store : ObjectStore) (this aCandidate : Nat) : ObjectStore :=
  match (store aCandidate).m_Type with
  | NETLIST_ITEM.HIERLABEL
  | NETLIST_ITEM.LABEL
  | NETLIST_ITEM.PINLABEL
  | NETLIST_ITEM.GLOBLABEL
  | NETLIST_ITEM.GLOBBUSLABELMEMBER
  | NETLIST_ITEM.SHEETBUSLABELMEMBER
  | NETLIST_ITEM.PIN =>
      fun p =>
        if p = this then { store this with m_netNameCandidate := some aCandidate }
        else store p
  | _ => store

/-! ## A concrete bus grammar

The theorems below hold for every `BusEnv`.  To evaluate the program on concrete
labels a grammar is needed; this one follows the description of the bus grammar. -/

/-- Characters that may stand in a name: no blank and no bracket or brace. -/
def isNameChar (c : Char) : Bool :=
  !(c = ' ' || c = '[' || c = ']' || c = '{' || c = '}')

/-- The value of a run of decimal digits. -/
def digitsValue (ds : List Char) : Nat :=
  ds.foldl (fun n c => 10 * n + (c.toNat - 48)) 0

/-- The blank-separated words of a text. -/
def wordsOf : List Char → List (List Char)
  | [] => []
  | c :: cs =>
      if c = ' ' then wordsOf cs
      else
        match wordsOf cs, cs with
        | w :: ws, d :: _ => if d = ' ' then [c] :: w :: ws else (c :: w) :: ws
        | ws, _ => [c] :: ws

/-- Modelled from the spec: `parse_vector`, the recogniser behind
`SCH_CONNECTION::ParseBusVector`, which is not in this file of the program.  It
recognises `PREFIX[start..end]` with `start` and `end` decimal integers in either
order, and gives none on any mismatch. -/
def parse_vector (text : String) : Option (String × Int × Int) :=
  let cs := text.toList
  let pfx := cs.takeWhile (fun c => c ≠ '[')
  match cs.dropWhile (fun c => c ≠ '[') with
  | '[' :: afterOpen =>
      let a := afterOpen.takeWhile Char.isDigit
      match afterOpen.dropWhile Char.isDigit with
      | '.' :: '.' :: afterDots =>
          let b := afterDots.takeWhile Char.isDigit
          match afterDots.dropWhile Char.isDigit with
          | [']'] =>
              if pfx ≠ [] ∧ pfx.all isNameChar = true ∧ a ≠ [] ∧ b ≠ [] then
                some (String.mk pfx, (digitsValue a : Int), (digitsValue b : Int))
              else none
          | _ => none
      | _ => none
  | _ => none

/-- Modelled from the spec: `parse_group`, the recogniser behind
`SCH_CONNECTION::ParseBusGroup`, which is not in this file of the program.  It
recognises `[GROUPNAME]{member member ...}` with a possibly empty group name; the
members are the raw blank-separated tokens between the braces. -/
def parse_group (text : String) : Option (String × List String) :=
  let cs := text.toList
  let name := cs.takeWhile (fun c => c ≠ '{')
  match cs.dropWhile (fun c => c ≠ '{') with
  | '{' :: afterOpen =>
      match afterOpen.reverse with
      | '}' :: revInner =>
          let inner := revInner.reverse
          let members := wordsOf inner
          if name.all isNameChar = true ∧ inner.all (fun c => c ≠ '{' ∧ c ≠ '}') = true
              ∧ members ≠ [] then
            some (String.mk name, members.map String.mk)
          else none
      | _ => none
  | _ => none

/-- Modelled from the spec: the member list `ParseBusVector` writes for
`PREFIX[start..end]`; its first entry is the member `start`, the entries run to
`end`, upwards or downwards, each the prefix followed by the index as text. -/
def vectorMembers (pfx : String) (start stop : Int) : List String :=
  if start ≤ stop then
    (List.range (stop + 1 - start).toNat).map (fun i => pfx ++ toString (start + (i : Int)))
  else
    (List.range (start + 1 - stop).toNat).map (fun i => pfx ++ toString (start - (i : Int)))

/-- The environment with the grammar above, the alias directory `aliases` and a
fresh connection that answers `vectorStart` and `vectorEnd`. -/
def specEnv (aliases : List (String × List String)) (vectorStart vectorEnd : Int) : BusEnv :=
  { ParseBusVector := fun text =>
      match parse_vector text with
      | some (pfx, start, stop) => some (pfx, vectorMembers pfx start stop)
      | none => none
    ParseBusGroup := parse_group
    GetBusAlias := fun name => aliases.lookup name
    VectorStart := vectorStart
    VectorEnd := vectorEnd }

/-- A netlist object of the given kind and text, as the connectivity builder creates
it: `m_Comp` is the schematic item it stands for, here the item of handle 0. -/
def labelObject (kind : NETLIST_ITEM) (text : String) : NETLIST_OBJECT :=
  { NETLIST_OBJECT.new with m_Type := kind, m_Comp := some 0, m_Label := text }

/-- The label and member number of an object. -/
def labelAndMember (o : NETLIST_OBJECT) : String × Int := (o.m_Label, o.m_Member)

/-- The records a call leaves: the object itself, then the list. -/
def BusResult.records (r : BusResult) : List NETLIST_OBJECT := r.self :: r.aNetListItems

/-- The copies the loop over the members appends for the plain scalar members `ts`
once the object itself has been set, with `member_offset` at `k` before the first of
them. -/
def scalarCopies (self : NETLIST_OBJECT) ( group_prefix : String) :
    Int → List String → List NETLIST_OBJECT
  | _, [] => []
  | k, t :: ts =>
      { self with m_Label := group_prefix ++ t, m_Member := toInt k } ::
        scalarCopies self group_prefix (toLong (k + 1)) ts

/-- The copies a loop of `fillBusVector` that ends appends: one for each member from
`aBegin` to `aEnd`, none when `aEnd` is below `aBegin`. -/
def fillRecords (self : NETLIST_OBJECT) (aName : String) (aBegin aEnd : Int) :
    List NETLIST_OBJECT :=
  (List.range (aEnd + 1 - aBegin).toNat).map (fun (i : Nat) =>
    { self with m_Label := aName ++ toString (aBegin + (i : Int)),
                m_Member := toInt (aBegin + (i : Int)) })

/-- The store that holds the objects of `objects` at the handles 0, 1, ... and
freshly constructed objects elsewhere. -/
def storeOf (objects : List NETLIST_OBJECT) : ObjectStore :=
  fun p => objects.getD p NETLIST_OBJECT.new

/-- Modelled from the spec: the human-readable text of a sheet path, which is not
in this file of the program; the root sheet is `/`, as in the net name `/RESET` of a
label `RESET` on the root sheet, and each sheet below adds its name and a slash. -/
def pathHumanReadable (path : SCH_SHEET_PATH) : String :=
  path.foldl (fun text sheet => text ++ sheet ++ "/") "/"

/-- Names for the evaluation of the net names: the owner of a pin is the symbol
`m_Link` points to, and the reference of the symbol with handle `n` is `U` followed
by `n`, on every sheet. -/
def sampleNames : NameEnv :=
  { PathHumanReadable := pathHumanReadable
    GetComponentParent := fun o => o.m_Link
    GetRef := fun component _ => "U" ++ toString component }

/-! ## The loop over the members, turn by turn; the objects of a build -/

/-- The variables of the loop over `bus_contents` after `n` turns, or as the loop
leaves them when it ends before; a turn that has no end leaves them as it found
them, its member still to visit. -/
def busTurns (env : BusEnv) ( group_prefix : String) : Nat → LoopState → LoopState
  | 0, st => st
  | n + 1, st =>
      match st.bus_contents with
      | [] => st
      | bus_member :: rest =>
          match busMemberStep env group_prefix st bus_member rest with
          | some st1 => busTurns env group_prefix n st1
          | none => st

/-- The netlist objects of one build: the store and the number of handles in use;
`new NETLIST_OBJECT` takes the next handle. -/
structure Build where
  store : ObjectStore
  count : Nat

/-- `ConvertBusToNetListItems` called on the object at `this` of a build: the object
is left as the call leaves it and the objects the call appends to the list are new
objects of the build. -/
def Build.ConvertBusToNetListItems (env : BusEnv) (fuel : Nat) (b : Build) (this : Nat) :
    Build :=
  let r := Netlist.ConvertBusToNetListItems env fuel (b.store this) []
  { store := fun p =>
      if p = this then r.self
      else if b.count ≤ p ∧ p < b.count + r.aNetListItems.length then
        r.aNetListItems.getD (p - b.count) NETLIST_OBJECT.new
      else b.store p
    count := b.count + r.aNetListItems.length }

/-- A call on the objects of a build. -/
inductive BuildCall where
  | SetNetNameCandidate (this aCandidate : Nat)
  | ConvertBusToNetListItems (this fuel : Nat)

/-- The build after a call. -/
def Build.call (env : BusEnv) (b : Build) : BuildCall → Build
  | BuildCall.SetNetNameCandidate this aCandidate =>
      { b with store := SetNetNameCandidate b.store this aCandidate }
  | BuildCall.ConvertBusToNetListItems this fuel => b.ConvertBusToNetListItems env fuel this

/-- The build after a sequence of calls. -/
def Build.calls (env : BusEnv) (b : Build) (cs : List BuildCall) : Build :=
  cs.foldl (Build.call env) b

/-- The accepted-candidate set of the data model: hierarchical label, label, pin
label, global label, global bus label member, sheet bus label member, pin. -/
def acceptedCandidateKind (kind : NETLIST_ITEM) : Bool :=
  kind = NETLIST_ITEM.HIERLABEL || kind = NETLIST_ITEM.LABEL || kind = NETLIST_ITEM.PINLABEL
    || kind = NETLIST_ITEM.GLOBLABEL || kind = NETLIST_ITEM.GLOBBUSLABELMEMBER
    || kind = NETLIST_ITEM.SHEETBUSLABELMEMBER || kind = NETLIST_ITEM.PIN

/-- The kinds a candidate can have after calls of `SetNetNameCandidate` and
`ConvertBusToNetListItems`: the accepted kinds and the two "-member" kinds that a
label or a hierarchical label gets when it is expanded. -/
def reachedCandidateKind (kind : NETLIST_ITEM) : Bool :=
  acceptedCandidateKind kind || kind = NETLIST_ITEM.BUSLABELMEMBER
    || kind = NETLIST_ITEM.HIERBUSLABELMEMBER

/-! ## Net classes (`pcbnew/netclass.cpp`) -/

/-- A net class: its name, its description, its member nets and its design values
(the values `NETCLASS::SetParams` copies). -/
structure NETCLASS where
  m_Name : String
  m_Description : String
  m_Members : List String
  Clearance : Int
  TrackWidth : Int
  ViaDiameter : Int
  ViaDrill : Int
  uViaDiameter : Int
  uViaDrill : Int
  DiffPairWidth : Int
  DiffPairGap : Int
  DiffPairViaGap : Int
  deriving DecidableEq

/-- `NETCLASS::Default`, the name of the default net class. -/
def NETCLASS.Default : String := "Default"

/-- The net classes of a board: the `std::map` from names to net classes and the
default net class.  A `NETCLASSPTR` that is not null is the net class it points to;
the map holds no null pointer (`Add` is the way into it and reads the name of the net
class it is given), and `m_default` is never null. -/
structure NETCLASSES where
  m_NetClasses : String → Option NETCLASS
  m_default : NETCLASS

/-- `NETCLASSES::Find`; `none` is the null `NETCLASSPTR()`. -/
def NETCLASSES.Find (self : NETCLASSES) (aName : String) : Option NETCLASS :=
  if aName = NETCLASS.Default then some self.m_default
  else self.m_NetClasses aName

/-- `NETCLASSES::Add`: the value returned and the net classes after the call. -/
def NETCLASSES.Add (self : NETCLASSES) (aNetClass : NETCLASS) : Bool × NETCLASSES :=
  let name := aNetClass.m_Name
  if name = NETCLASS.Default then
    (true, { self with m_default := aNetClass })
  else if (self.Find name).isNone then
    -- name not found, take ownership
    (true, { self with
      m_NetClasses := fun n => if n = name then some aNetClass else self.m_NetClasses n })
  else
    -- name already exists
    (false, self)

/-- `NETCLASSES::NETCLASSES()` with the default net class `aDefault` that
`std::make_shared<NETCLASS>( NETCLASS::Default )` builds: no net class in the map. -/
def NETCLASSES.new (aDefault : NETCLASS) : NETCLASSES :=
  { m_NetClasses := fun _ => none, m_default := aDefault }

/-- A net class of the given name with the given clearance and no member. -/
def netClassNamed (name : String) (clearance : Int) : NETCLASS :=
  { m_Name := name, m_Description := "", m_Members := [], Clearance := clearance,
    TrackWidth := 0, ViaDiameter := 0, ViaDrill := 0, uViaDiameter := 0, uViaDrill := 0,
    DiffPairWidth := 0, DiffPairGap := 0, DiffPairViaGap := 0 }

/-! ## `long` and `int` values; the loop of `fillBusVector` -/

theorem toLong_range (x : Int) :
    -9223372036854775808 ≤ toLong x ∧ toLong x ≤ 9223372036854775807 := by
  unfold toLong
  omega

theorem toLong_of_range (x : Int) (h1 : -9223372036854775808 ≤ x)
    (h2 : x ≤ 9223372036854775807) : toLong x = x := by
  unfold toLong
  omega

theorem toInt_of_range (x : Int) (h1 : -2147483648 ≤ x) (h2 : x ≤ 2147483647) :
    toInt x = x := by
  unfold toInt
  omega

/-- The copies for the members from `member` on are the copy for `member` followed by
the copies for the members from `member + 1` on. -/
theorem fillRecords_cons (self : NETLIST_OBJECT) (aName : String) (member aEnd : Int)
    (h : member ≤ aEnd) :
    fillRecords self aName member aEnd =
      { self with m_Label := aName ++ toString member, m_Member := toInt member } ::
        fillRecords self aName (member + 1) aEnd := by
  unfold fillRecords
  have hn : (aEnd + 1 - member).toNat = (aEnd + 1 - (member + 1)).toNat + 1 := by omega
  rw [hn, List.range_succ_eq_map]
  simp only [List.map_cons, List.map_map, Nat.cast_zero, add_zero, List.cons.injEq, true_and]
  apply List.map_congr_left
  intro i _
  simp only [Function.comp, Nat.cast_succ]
  have e : member + 1 + (i : Int) = member + ((i : Int) + 1) := by ring
  rw [e]

theorem fillRecords_nil (self : NETLIST_OBJECT) (aName : String) (member aEnd : Int)
    (h : aEnd < member) : fillRecords self aName member aEnd = [] := by
  unfold fillRecords
  have hn : (aEnd + 1 - member).toNat = 0 := by omega
  rw [hn]
  rfl

/-- A loop of `fillBusVector` whose end is below the largest `long` ends, within as
many turns as there are members, and appends one copy for each member. -/
theorem fillBusVectorLoop_ends (self : NETLIST_OBJECT) (aName : String) (aEnd : Int)
    (hE : aEnd < LONG_MAX) :
    ∀ (k turns : Nat) (member : Int) (items : List NETLIST_OBJECT),
      (aEnd + 1 - member).toNat = k → k ≤ turns → -9223372036854775808 ≤ member →
      fillBusVectorLoop self aName aEnd turns member items =
        some (items ++ fillRecords self aName member aEnd) := by
  unfold LONG_MAX at hE
  intro k
  induction k with
  | zero =>
      intro turns member items hk _ _
      have hlt : aEnd < member := by omega
      have hnot : ¬ member ≤ aEnd := by omega
      rw [fillRecords_nil self aName member aEnd hlt, List.append_nil]
      cases turns <;> simp only [fillBusVectorLoop, hnot, if_false]
  | succ k ih =>
      intro turns member items hk hle hlo
      have hm : member ≤ aEnd := by omega
      cases turns with
      | zero => omega
      | succ t =>
          have hnext : toLong (member + 1) = member + 1 :=
            toLong_of_range _ (by omega) (by omega)
          simp only [fillBusVectorLoop, hm, if_true, hnext]
          rw [ih t (member + 1) _ (by omega) (by omega) (by omega),
            fillRecords_cons self aName member aEnd hm, List.append_assoc]
          rfl

/-- A loop of `fillBusVector` whose end is the largest `long` has no end: the test
holds at every turn, whatever the bound on the turns. -/
theorem fillBusVectorLoop_endless (self : NETLIST_OBJECT) (aName : String) (aEnd : Int)
    (hE : LONG_MAX ≤ aEnd) :
    ∀ (turns : Nat) (member : Int) (items : List NETLIST_OBJECT),
      member ≤ LONG_MAX → fillBusVectorLoop self aName aEnd turns member items = none := by
  unfold LONG_MAX at hE ⊢
  intro turns
  induction turns with
  | zero =>
      intro member items h
      have hm : member ≤ aEnd := by omega
      simp only [fillBusVectorLoop, hm, if_true]
  | succ t ih =>
      intro member items h
      have hm : member ≤ aEnd := by omega
      simp only [fillBusVectorLoop, hm, if_true]
      exact ih _ _ (toLong_range _).2

/-- `fillBusVector` on `long`s with an end below the largest `long`. -/
theorem fillBusVector_eq (self : NETLIST_OBJECT) (items : List NETLIST_OBJECT)
    (aName : String) (aBegin aEnd aOffset : Int)
    (hB : -9223372036854775808 ≤ aBegin) (hE : aEnd < LONG_MAX) :
    fillBusVector self items aName aBegin aEnd aOffset =
      some (items ++ fillRecords self aName aBegin aEnd) := by
  unfold fillBusVector
  apply fillBusVectorLoop_ends self aName aEnd hE (aEnd + 1 - aBegin).toNat _ aBegin items rfl
    _ hB
  unfold LONG_MAX at hE
  omega

/-- `fillBusVector` on `long`s with the largest `long` as the end. -/
theorem fillBusVector_endless (self : NETLIST_OBJECT) (items : List NETLIST_OBJECT)
    (aName : String) (aBegin aEnd aOffset : Int)
    (hB : aBegin ≤ LONG_MAX) (hE : LONG_MAX ≤ aEnd) :
    fillBusVector self items aName aBegin aEnd aOffset = none :=
  fillBusVectorLoop_endless self aName aEnd hE _ aBegin items hB

/-- Whatever the range, what a loop of `fillBusVector` that ends has appended are
copies of the calling object that differ from it in label and member number only. -/
theorem fillBusVectorLoop_copies (self : NETLIST_OBJECT) (aName : String) (aEnd : Int) :
    ∀ (turns : Nat) (member : Int) (items l : List NETLIST_OBJECT),
      fillBusVectorLoop self aName aEnd turns member items = some l →
      ∃ app, l = items ++ app ∧
        ∀ o ∈ app, { o with m_Label := self.m_Label, m_Member := self.m_Member } = self := by
  intro turns
  induction turns with
  | zero =>
      intro member items l h
      by_cases hm : member ≤ aEnd
      · simp [fillBusVectorLoop, hm] at h
      · simp only [fillBusVectorLoop, hm, if_false, Option.some.injEq] at h
        exact ⟨[], by simp [h], by simp⟩
  | succ t ih =>
      intro member items l h
      by_cases hm : member ≤ aEnd
      · simp only [fillBusVectorLoop, hm, if_true] at h
        obtain ⟨app, hl, hA⟩ := ih _ _ _ h
        refine ⟨_ :: app, by rw [hl, List.append_assoc]; rfl, ?_⟩
        intro o ho
        rcases List.mem_cons.1 ho with h1 | h1
        · subst h1
          rfl
        · exact hA o h1
      · simp only [fillBusVectorLoop, hm, if_false, Option.some.injEq] at h
        exact ⟨[], by simp [h], by simp⟩

theorem fillBusVector_copies (self : NETLIST_OBJECT) (items l : List NETLIST_OBJECT)
    (aName : String) (aBegin aEnd aOffset : Int)
    (h : fillBusVector self items aName aBegin aEnd aOffset = some l) :
    ∃ app, l = items ++ app ∧
      ∀ o ∈ app, { o with m_Label := self.m_Label, m_Member := self.m_Member } = self :=
  fillBusVectorLoop_copies self aName aEnd _ aBegin items l h

/-- The loop of `fillBusVector` does not read the label and the member number of the
calling object. -/
theorem fillBusVectorLoop_label_blind (self : NETLIST_OBJECT) (aName : String) (aEnd : Int)
    (label : String) (number : Int) :
    ∀ (turns : Nat) (member : Int) (items : List NETLIST_OBJECT),
      fillBusVectorLoop { self with m_Label := label, m_Member := number } aName aEnd turns
        member items = fillBusVectorLoop self aName aEnd turns member items := by
  intro turns
  induction turns with
  | zero => intro member items; rfl
  | succ t ih =>
      intro member items
      simp only [fillBusVectorLoop]
      rw [ih]

theorem fillBusVector_label_blind (self : NETLIST_OBJECT) (items : List NETLIST_OBJECT)
    (aName : String) (aBegin aEnd aOffset : Int) (label : String) (number : Int) :
    fillBusVector { self with m_Label := label, m_Member := number } items aName aBegin aEnd
      aOffset = fillBusVector self items aName aBegin aEnd aOffset :=
  fillBusVectorLoop_label_blind self aName aEnd label number _ aBegin items

/-! ## The loop over the members -/

theorem busLoop_nil (env : BusEnv) (gp : String) (fuel : Nat) (st : LoopState)
    (h : st.bus_contents = []) :
    busLoop env gp fuel st =
      { status := BusStatus.done, self := st.self, aNetListItems := st.aNetListItems } := by
  cases fuel <;> simp only [busLoop, h]

theorem busLoop_cons (env : BusEnv) (gp : String) (fuel : Nat) (st st1 : LoopState)
    (m : String) (rest : List String) (h : st.bus_contents = m :: rest)
    (hs : busMemberStep env gp st m rest = some st1) :
    busLoop env gp (fuel + 1) st = busLoop env gp fuel st1 := by
  simp only [busLoop, h, hs]

/-- A turn that has no end leaves the call unfinished at every bound. -/
theorem busLoop_endless_turn (env : BusEnv) (gp : String) (fuel : Nat) (st : LoopState)
    (m : String) (rest : List String) (h : st.bus_contents = m :: rest)
    (hs : busMemberStep env gp st m rest = none) :
    busLoop env gp (fuel + 1) st =
      { status := BusStatus.unfinished, self := st.self, aNetListItems := st.aNetListItems } := by
  simp only [busLoop, h, hs]

theorem busLoop_out_of_fuel (env : BusEnv) (gp : String) (st : LoopState)
    (m : String) (rest : List String) (h : st.bus_contents = m :: rest) :
    busLoop env gp 0 st =
      { status := BusStatus.unfinished, self := st.self, aNetListItems := st.aNetListItems } := by
  simp only [busLoop, h]

/-- Once the loop has ended within the bound, a larger bound gives the same result. -/
theorem busLoop_done_mono (env : BusEnv) (gp : String) (fuel : Nat) :
    ∀ (st : LoopState), (busLoop env gp fuel st).status = BusStatus.done →
      ∀ k, busLoop env gp (fuel + k) st = busLoop env gp fuel st := by
  induction fuel with
  | zero =>
      intro st h k
      cases hc : st.bus_contents with
      | nil => rw [busLoop_nil env gp _ st hc, busLoop_nil env gp _ st hc]
      | cons m rest =>
          rw [busLoop_out_of_fuel env gp st m rest hc] at h
          simp at h
  | succ n ih =>
      intro st h k
      cases hc : st.bus_contents with
      | nil => rw [busLoop_nil env gp _ st hc, busLoop_nil env gp _ st hc]
      | cons m rest =>
          cases hs : busMemberStep env gp st m rest with
          | none =>
              rw [busLoop_endless_turn env gp n st m rest hc hs] at h
              simp at h
          | some st1 =>
              rw [busLoop_cons env gp n st st1 m rest hc hs] at h
              rw [show n + 1 + k = (n + k) + 1 by omega,
                busLoop_cons env gp (n + k) st st1 m rest hc hs,
                busLoop_cons env gp n st st1 m rest hc hs]
              exact ih _ h k

/-- A turn of the loop on a vector member while the object itself is not yet set:
the object itself is written, then `fillBusVector` is called two above the start of
the range. -/
theorem busMemberStep_vector_first_fill (env : BusEnv) (gp : String) (st : LoopState)
    (m : String) (rest : List String) (pfx : String) (members : List String)
    (hV : env.ParseBusVector m = some (pfx, members)) (hS : st.self_set = false) :
    busMemberStep env gp st m rest =
      (fillBusVector
          { st.self with
              m_Label := members.headD ""
              m_Member := toInt (toLong (toLong env.VectorStart + st.member_offset)) }
          st.aNetListItems (gp ++ pfx) (toLong (toLong (toLong env.VectorStart + 1) + 1))
          (toLong env.VectorEnd) (toLong (st.member_offset + 1))).map (fun l =>
        { self := { st.self with
              m_Label := members.headD ""
              m_Member := toInt (toLong (toLong env.VectorStart + st.member_offset)) }
          aNetListItems := l
          bus_contents := rest
          member_offset := toLong (toLong (st.member_offset + 1) +
            toLong ((toLong (toLong env.VectorEnd -
              toLong (toLong (toLong env.VectorStart + 1) + 1))).natAbs : Int))
          self_set := true }) := by
  unfold busMemberStep
  simp only [hV, hS, if_true]
  cases fillBusVector
      { st.self with
          m_Label := members.headD ""
          m_Member := toInt (toLong (toLong env.VectorStart + st.member_offset)) }
      st.aNetListItems (gp ++ pfx) (toLong (toLong (toLong env.VectorStart + 1) + 1))
      (toLong env.VectorEnd) (toLong (st.member_offset + 1)) <;> rfl

/-- A turn of the loop on a vector member once the object itself is set. -/
theorem busMemberStep_vector_next_fill (env : BusEnv) (gp : String) (st : LoopState)
    (m : String) (rest : List String) (pfx : String) (members : List String)
    (hV : env.ParseBusVector m = some (pfx, members)) (hS : st.self_set = true) :
    busMemberStep env gp st m rest =
      (fillBusVector st.self st.aNetListItems (gp ++ pfx) (toLong env.VectorStart)
          (toLong env.VectorEnd) st.member_offset).map (fun l =>
        { self := st.self
          aNetListItems := l
          bus_contents := rest
          member_offset := toLong (st.member_offset +
            toLong ((toLong (toLong env.VectorEnd - toLong env.VectorStart)).natAbs : Int))
          self_set := true }) := by
  unfold busMemberStep
  simp only [hV, hS, Bool.true_eq_false, if_false]
  cases fillBusVector st.self st.aNetListItems (gp ++ pfx) (toLong env.VectorStart)
      (toLong env.VectorEnd) st.member_offset <;> rfl

/-- A turn of the loop on a vector member has no end when the fresh connection
answers the largest `long` as the end of its range. -/
theorem busMemberStep_vector_endless (env : BusEnv) (gp : String) (st : LoopState)
    (m : String) (rest : List String) (pfx : String) (members : List String)
    (hV : env.ParseBusVector m = some (pfx, members))
    (hE : ¬ toLong env.VectorEnd < LONG_MAX) :
    busMemberStep env gp st m rest = none := by
  have hE2 : LONG_MAX ≤ toLong env.VectorEnd := not_lt.1 hE
  cases hS : st.self_set with
  | false =>
      rw [busMemberStep_vector_first_fill env gp st m rest pfx members hV hS,
        fillBusVector_endless _ _ _ _ _ _ (toLong_range _).2 hE2]
      rfl
  | true =>
      rw [busMemberStep_vector_next_fill env gp st m rest pfx members hV hS,
        fillBusVector_endless _ _ _ _ _ _ (toLong_range _).2 hE2]
      rfl

/-- A turn of the loop on a vector member while the object itself is not yet set, the
end of the range below the largest `long`. -/
theorem busMemberStep_vector_first (env : BusEnv) (gp : String) (st : LoopState)
    (m : String) (rest : List String) (pfx : String) (members : List String)
    (hV : env.ParseBusVector m = some (pfx, members)) (hS : st.self_set = false)
    (hE : toLong env.VectorEnd < LONG_MAX) :
    busMemberStep env gp st m rest =
      some
        { self := { st.self with
              m_Label := members.headD ""
              m_Member := toInt (toLong (toLong env.VectorStart + st.member_offset)) }
          aNetListItems := st.aNetListItems ++
            fillRecords st.self (gp ++ pfx) (toLong (toLong (toLong env.VectorStart + 1) + 1))
              (toLong env.VectorEnd)
          bus_contents := rest
          member_offset := toLong (toLong (st.member_offset + 1) +
            toLong ((toLong (toLong env.VectorEnd -
              toLong (toLong (toLong env.VectorStart + 1) + 1))).natAbs : Int))
          self_set := true } := by
  rw [busMemberStep_vector_first_fill env gp st m rest pfx members hV hS,
    fillBusVector_eq _ _ _ _ _ _ (toLong_range _).1 hE]
  rfl

/-- A turn of the loop on a vector member once the object itself is set, the end of
the range below the largest `long`. -/
theorem busMemberStep_vector_next (env : BusEnv) (gp : String) (st : LoopState)
    (m : String) (rest : List String) (pfx : String) (members : List String)
    (hV : env.ParseBusVector m = some (pfx, members)) (hS : st.self_set = true)
    (hE : toLong env.VectorEnd < LONG_MAX) :
    busMemberStep env gp st m rest =
      some
        { self := st.self
          aNetListItems := st.aNetListItems ++
            fillRecords st.self (gp ++ pfx) (toLong env.VectorStart) (toLong env.VectorEnd)
          bus_contents := rest
          member_offset := toLong (st.member_offset +
            toLong ((toLong (toLong env.VectorEnd - toLong env.VectorStart)).natAbs : Int))
          self_set := true } := by
  rw [busMemberStep_vector_next_fill env gp st m rest pfx members hV hS,
    fillBusVector_eq _ _ _ _ _ _ (toLong_range _).1 hE]
  rfl

/-- A turn of the loop on an alias name. -/
theorem busMemberStep_alias (env : BusEnv) (gp : String) (st : LoopState)
    (m : String) (rest : List String) (alias_members : List String)
    (hV : env.ParseBusVector m = none) (hA : env.GetBusAlias m = some alias_members) :
    busMemberStep env gp st m rest =
      some { st with bus_contents := rest ++ alias_members } := by
  unfold busMemberStep
  simp only [hV, hA]

/-- A turn of the loop on a plain scalar member while the object itself is not yet
set. -/
theorem busMemberStep_scalar_first (env : BusEnv) (gp : String) (st : LoopState)
    (m : String) (rest : List String)
    (hV : env.ParseBusVector m = none) (hA : env.GetBusAlias m = none)
    (hS : st.self_set = false) :
    busMemberStep env gp st m rest =
      some
        { self := { st.self with m_Label := gp ++ m, m_Member := toInt st.member_offset }
          aNetListItems := st.aNetListItems
          bus_contents := rest
          member_offset := toLong (st.member_offset + 1)
          self_set := true } := by
  unfold busMemberStep
  simp [hV, hA, hS]

/-- A turn of the loop on a plain scalar member once the object itself is set. -/
theorem busMemberStep_scalar_next (env : BusEnv) (gp : String) (st : LoopState)
    (m : String) (rest : List String)
    (hV : env.ParseBusVector m = none) (hA : env.GetBusAlias m = none)
    (hS : st.self_set = true) :
    busMemberStep env gp st m rest =
      some
        { self := st.self
          aNetListItems := st.aNetListItems ++
            [{ st.self with m_Label := gp ++ m, m_Member := toInt st.member_offset }]
          bus_contents := rest
          member_offset := toLong (st.member_offset + 1)
          self_set := true } := by
  unfold busMemberStep
  simp [hV, hA, hS]

/-- A copy of a rewritten object is a copy of the object. -/
theorem copy_of_rewritten (o s : NETLIST_OBJECT) (label : String) (number : Int)
    (h : { o with m_Label := label, m_Member := number } =
      { s with m_Label := label, m_Member := number }) :
    { o with m_Label := s.m_Label, m_Member := s.m_Member } = s := by
  cases o
  cases s
  simp only [NETLIST_OBJECT.mk.injEq] at h ⊢
  tauto

/-- What a turn of the loop that has an end does, whatever the member: the object
itself changes in label and member number at most, and only when it was not set; the
records appended are copies of the object that differ from it in label and member
number only, and none is appended while the object is not set; the members to visit
are those after the member visited, followed, when the member was taken as an alias,
by the members of that alias. -/
theorem busMemberStep_shape (env : BusEnv) (gp : String) (st st1 : LoopState)
    (m : String) (rest : List String) (hs : busMemberStep env gp st m rest = some st1) :
    ∃ (app : List NETLIST_OBJECT) (t : List String),
      { st1.self with m_Label := st.self.m_Label, m_Member := st.self.m_Member } = st.self ∧
      (st.self_set = true → st1.self = st.self ∧ st1.self_set = true) ∧
      (st1.self_set = false → st1.self = st.self ∧ app = []) ∧
      st1.aNetListItems = st.aNetListItems ++ app ∧
      (∀ o ∈ app,
        { o with m_Label := st.self.m_Label, m_Member := st.self.m_Member } = st.self) ∧
      st1.bus_contents = rest ++ t ∧
      (t = [] ∨ (env.ParseBusVector m = none ∧ env.GetBusAlias m = some t)) := by
  cases hV : env.ParseBusVector m with
  | some pm =>
      obtain ⟨pfx, members⟩ := pm
      cases hS : st.self_set with
      | false =>
          rw [busMemberStep_vector_first_fill env gp st m rest pfx members hV hS] at hs
          cases hF : fillBusVector
              { st.self with
                  m_Label := members.headD ""
                  m_Member := toInt (toLong (toLong env.VectorStart + st.member_offset)) }
              st.aNetListItems (gp ++ pfx) (toLong (toLong (toLong env.VectorStart + 1) + 1))
              (toLong env.VectorEnd) (toLong (st.member_offset + 1)) with
          | none => rw [hF] at hs; cases hs
          | some l =>
              rw [hF] at hs
              simp only [Option.map_some', Option.some.injEq] at hs
              subst hs
              obtain ⟨app, hl, hA⟩ := fillBusVector_copies _ _ _ _ _ _ _ hF
              refine ⟨app, [], rfl, by simp, by simp, hl, ?_, by simp, Or.inl rfl⟩
              intro o ho
              exact copy_of_rewritten o st.self _ _ (hA o ho)
      | true =>
          rw [busMemberStep_vector_next_fill env gp st m rest pfx members hV hS] at hs
          cases hF : fillBusVector st.self st.aNetListItems (gp ++ pfx) (toLong env.VectorStart)
              (toLong env.VectorEnd) st.member_offset with
          | none => rw [hF] at hs; cases hs
          | some l =>
              rw [hF] at hs
              simp only [Option.map_some', Option.some.injEq] at hs
              subst hs
              obtain ⟨app, hl, hA⟩ := fillBusVector_copies _ _ _ _ _ _ _ hF
              exact ⟨app, [], rfl, by simp, by simp, hl, hA, by simp, Or.inl rfl⟩
  | none =>
      cases hAl : env.GetBusAlias m with
      | some ms =>
          rw [busMemberStep_alias env gp st m rest ms hV hAl] at hs
          simp only [Option.some.injEq] at hs
          subst hs
          exact ⟨[], ms, rfl, fun h => ⟨rfl, h⟩, fun _ => ⟨rfl, rfl⟩, by simp, by simp,
            rfl, Or.inr ⟨rfl, rfl⟩⟩
      | none =>
          cases hS : st.self_set with
          | false =>
              rw [busMemberStep_scalar_first env gp st m rest hV hAl hS] at hs
              simp only [Option.some.injEq] at hs
              subst hs
              exact ⟨[], [], rfl, by simp, by simp, by simp, by simp, by simp, Or.inl rfl⟩
          | true =>
              rw [busMemberStep_scalar_next env gp st m rest hV hAl hS] at hs
              simp only [Option.some.injEq] at hs
              subst hs
              refine ⟨_, [], rfl, by simp, by simp, rfl, ?_, by simp, Or.inl rfl⟩
              intro o ho
              simp only [List.mem_singleton] at ho
              subst ho
              rfl

/-- A copy has the kind of the object. -/
theorem copy_kind (o s : NETLIST_OBJECT)
    (h : { o with m_Label := s.m_Label, m_Member := s.m_Member } = s) :
    o.m_Type = s.m_Type := by
  have h2 := congrArg NETLIST_OBJECT.m_Type h
  exact h2

/-- A copy has the net name candidate of the object. -/
theorem copy_candidate (o s : NETLIST_OBJECT)
    (h : { o with m_Label := s.m_Label, m_Member := s.m_Member } = s) :
    o.m_netNameCandidate = s.m_netNameCandidate := by
  have h2 := congrArg NETLIST_OBJECT.m_netNameCandidate h
  exact h2

/-- One turn of the loop keeps the kind of the object, and only appends objects of
that kind to the list. -/
theorem busMemberStep_frame (env : BusEnv) (gp : String) (st st1 : LoopState)
    (m : String) (rest : List String) (hs : busMemberStep env gp st m rest = some st1) :
    st1.self.m_Type = st.self.m_Type ∧
    ∃ app, st1.aNetListItems = st.aNetListItems ++ app ∧
      ∀ o ∈ app, o.m_Type = st.self.m_Type := by
  obtain ⟨app, _, hSelf, _, _, hI, hA, _, _⟩ := busMemberStep_shape env gp st st1 m rest hs
  refine ⟨copy_kind _ _ hSelf, app, hI, ?_⟩
  intro o ho
  exact copy_kind _ _ (hA o ho)

/-- The loop keeps the kind of the object, only appends objects of that kind to the
list, and ends in `done` or is `unfinished`. -/
theorem busLoop_frame (env : BusEnv) (gp : String) (fuel : Nat) :
    ∀ st : LoopState,
      (busLoop env gp fuel st).self.m_Type = st.self.m_Type ∧
      ((busLoop env gp fuel st).status = BusStatus.done ∨
        (busLoop env gp fuel st).status = BusStatus.unfinished) ∧
      ∃ app, (busLoop env gp fuel st).aNetListItems = st.aNetListItems ++ app ∧
        ∀ o ∈ app, o.m_Type = st.self.m_Type := by
  induction fuel with
  | zero =>
      intro st
      cases h : st.bus_contents with
      | nil => rw [busLoop_nil env gp 0 st h]; exact ⟨rfl, Or.inl rfl, [], by simp, by simp⟩
      | cons m rest =>
          rw [busLoop_out_of_fuel env gp st m rest h]
          exact ⟨rfl, Or.inr rfl, [], by simp, by simp⟩
  | succ k ih =>
      intro st
      cases h : st.bus_contents with
      | nil => rw [busLoop_nil env gp _ st h]; exact ⟨rfl, Or.inl rfl, [], by simp, by simp⟩
      | cons m rest =>
          cases hs : busMemberStep env gp st m rest with
          | none =>
              rw [busLoop_endless_turn env gp k st m rest h hs]
              exact ⟨rfl, Or.inr rfl, [], by simp, by simp⟩
          | some st1 =>
              rw [busLoop_cons env gp k st st1 m rest h hs]
              obtain ⟨hT, hS, app2, hI, hA⟩ := ih st1
              obtain ⟨hT1, app1, hI1, hA1⟩ := busMemberStep_frame env gp st st1 m rest hs
              refine ⟨hT.trans hT1, hS, app1 ++ app2, ?_, ?_⟩
              · rw [hI, hI1, List.append_assoc]
              · intro o ho
                rcases List.mem_append.1 ho with h1 | h2
                · exact hA1 o h1
                · exact (hA o h2).trans hT1

/-- What a call does to the kind of the object and to the list, in every case. -/
theorem convert_frame (env : BusEnv) (fuel : Nat) (self : NETLIST_OBJECT)
    (items : List NETLIST_OBJECT) :
    ∃ app, (ConvertBusToNetListItems env fuel self items).aNetListItems = items ++ app ∧
      ∀ o ∈ app, o.m_Type = (ConvertBusToNetListItems env fuel self items).self.m_Type := by
  unfold ConvertBusToNetListItems
  split
  · exact ⟨[], by simp, by simp⟩
  · split
    · exact ⟨[], by simp, by simp⟩
    · rename_i memberType _
      dsimp only
      split
      · rename_i group_name bus_contents_vec _
        obtain ⟨hT, _, app, hI, hA⟩ := busLoop_frame env
          (if group_name ≠ "" then group_name ++ "." else "") fuel
          { self := { self with m_Type := memberType }, aNetListItems := items,
            bus_contents := bus_contents_vec, member_offset := 0, self_set := false }
        exact ⟨app, hI, fun o ho => (hA o ho).trans hT.symm⟩
      · split
        · split
          · rename_i l hF
            obtain ⟨app, hl, hA⟩ := fillBusVector_copies _ _ _ _ _ _ _ hF
            exact ⟨app, hl, fun o ho => copy_kind _ _ (hA o ho)⟩
          · exact ⟨[], by simp, by simp⟩
        · exact ⟨[], by simp, by simp⟩

/-- A call that is not rejected has given the object its "-member" kind. -/
theorem convert_type (env : BusEnv) (fuel : Nat) (self : NETLIST_OBJECT)
    (items : List NETLIST_OBJECT) (memberType : NETLIST_ITEM)
    (hB : env.IsBusLabel self.m_Label = true)
    (hT : busMemberType self.m_Type = some memberType) :
    (ConvertBusToNetListItems env fuel self items).self.m_Type = memberType ∧
    ((ConvertBusToNetListItems env fuel self items).status = BusStatus.done ∨
      (ConvertBusToNetListItems env fuel self items).status = BusStatus.unfinished) := by
  unfold ConvertBusToNetListItems
  simp only [hB, hT]
  simp only [Bool.true_eq_false, if_false]
  split
  · rename_i group_name bus_contents_vec _
    obtain ⟨h1, h2, _⟩ := busLoop_frame env
      (if group_name ≠ "" then group_name ++ "." else "") fuel
      { self := { self with m_Type := memberType }, aNetListItems := items,
        bus_contents := bus_contents_vec, member_offset := 0, self_set := false }
    exact ⟨h1, h2⟩
  · split
    · split
      · exact ⟨rfl, Or.inl rfl⟩
      · exact ⟨rfl, Or.inr rfl⟩
    · exact ⟨rfl, Or.inl rfl⟩

theorem empty_append_string (t : String) : "" ++ t = t := by
  cases t; rfl

/-- The direct-vector path: the object itself is written, then `fillBusVector` is
called one above the start of the range. -/
theorem convert_vector_fill (env : BusEnv) (fuel : Nat) (self : NETLIST_OBJECT)
    (items : List NETLIST_OBJECT) (memberType : NETLIST_ITEM) (name : String)
    (members : List String)
    (hT : busMemberType self.m_Type = some memberType)
    (hA : env.GetBusAlias self.m_Label = none)
    (hG : env.ParseBusGroup self.m_Label = none)
    (hV : env.ParseBusVector self.m_Label = some (name, members)) :
    ConvertBusToNetListItems env fuel self items =
      match fillBusVector
        { self with m_Type := memberType, m_Label := members.headD "",
                    m_Member := toInt (toLong env.VectorStart) }
        items name (toLong (toLong env.VectorStart + 1)) (toLong env.VectorEnd) 0 with
      | some l =>
          { status := BusStatus.done
            self := { self with m_Type := memberType, m_Label := members.headD "",
                                m_Member := toInt (toLong env.VectorStart) }
            aNetListItems := l }
      | none =>
          { status := BusStatus.unfinished
            self := { self with m_Type := memberType }
            aNetListItems := items } := by
  have hB : env.IsBusLabel self.m_Label = true := by simp [BusEnv.IsBusLabel, hV]
  unfold ConvertBusToNetListItems
  simp only [hB, hT, busGroupOf, hA, hG, hV]
  simp only [Bool.true_eq_false, if_false]

/-- The direct-vector path: what the call leaves when the label is no alias and no
group and the vector recogniser accepts it, the end of the range of the fresh
connection below the largest `long`. -/
theorem convert_vector (env : BusEnv) (fuel : Nat) (self : NETLIST_OBJECT)
    (items : List NETLIST_OBJECT) (memberType : NETLIST_ITEM) (name : String)
    (members : List String)
    (hT : busMemberType self.m_Type = some memberType)
    (hA : env.GetBusAlias self.m_Label = none)
    (hG : env.ParseBusGroup self.m_Label = none)
    (hV : env.ParseBusVector self.m_Label = some (name, members))
    (hE : toLong env.VectorEnd < LONG_MAX) :
    ConvertBusToNetListItems env fuel self items =
      { status := BusStatus.done
        self := { self with m_Type := memberType, m_Label := members.headD "",
                            m_Member := toInt (toLong env.VectorStart) }
        aNetListItems := items ++
          fillRecords { self with m_Type := memberType } name
            (toLong (toLong env.VectorStart + 1)) (toLong env.VectorEnd) } := by
  rw [convert_vector_fill env fuel self items memberType name members hT hA hG hV,
    fillBusVector_eq _ _ _ _ _ _ (toLong_range _).1 hE]
  rfl

/-- The direct-vector path when the fresh connection answers the largest `long` as
the end of its range: the call does not return. -/
theorem convert_vector_endless (env : BusEnv) (fuel : Nat) (self : NETLIST_OBJECT)
    (items : List NETLIST_OBJECT) (memberType : NETLIST_ITEM) (name : String)
    (members : List String)
    (hT : busMemberType self.m_Type = some memberType)
    (hA : env.GetBusAlias self.m_Label = none)
    (hG : env.ParseBusGroup self.m_Label = none)
    (hV : env.ParseBusVector self.m_Label = some (name, members))
    (hE : ¬ toLong env.VectorEnd < LONG_MAX) :
    ConvertBusToNetListItems env fuel self items =
      { status := BusStatus.unfinished
        self := { self with m_Type := memberType }
        aNetListItems := items } := by
  rw [convert_vector_fill env fuel self items memberType name members hT hA hG hV,
    fillBusVector_endless _ _ _ _ _ _ (toLong_range _).2 (not_lt.1 hE)]

/-- The group path: the call is the loop over the members of the group. -/
theorem convert_group (env : BusEnv) (fuel : Nat) (self : NETLIST_OBJECT)
    (items : List NETLIST_OBJECT) (memberType : NETLIST_ITEM) (group_name : String)
    (members : List String)
    (hB : env.IsBusLabel self.m_Label = true)
    (hT : busMemberType self.m_Type = some memberType)
    (hG : busGroupOf env self.m_Label = some (group_name, members)) :
    ConvertBusToNetListItems env fuel self items =
      busLoop env (if group_name ≠ "" then group_name ++ "." else "") fuel
        { self := { self with m_Type := memberType }, aNetListItems := items,
          bus_contents := members, member_offset := 0, self_set := false } := by
  unfold ConvertBusToNetListItems
  simp only [hB, hT, hG]
  simp only [Bool.true_eq_false, if_false]

/-- The labels and member numbers of the copies for plain scalar members, while the
member numbers are within the range of `int`. -/
theorem scalarCopies_labelAndMember (self : NETLIST_OBJECT) (gp : String) (ts : List String) :
    ∀ (n : Nat), n + ts.length ≤ 2147483648 →
      (scalarCopies self gp (n : Int) ts).map labelAndMember =
        (ts.enumFrom n).map (fun p => (gp ++ p.2, (p.1 : Int))) := by
  induction ts with
  | nil => intro n _; rfl
  | cons t ts ih =>
      intro n hn
      simp only [List.length_cons] at hn
      have h1 : toLong ((n : Int) + 1) = ((n + 1 : Nat) : Int) := by
        rw [toLong_of_range _ (by omega) (by omega)]
        simp
      have h2 : toInt (n : Int) = (n : Int) := toInt_of_range _ (by omega) (by omega)
      simp only [scalarCopies, List.map_cons, List.enumFrom_cons, h1, h2]
      rw [ih (n + 1) (by omega)]
      rfl

/-- The loop on plain scalar members, once the object itself has been set: one copy
per member is appended. -/
theorem busLoop_scalars (env : BusEnv) (gp : String) (ts : List String) :
    ∀ (fuel : Nat) (st : LoopState),
      st.bus_contents = ts → st.self_set = true → ts.length ≤ fuel →
      (∀ t ∈ ts, env.ParseBusVector t = none ∧ env.GetBusAlias t = none) →
      busLoop env gp fuel st =
        { status := BusStatus.done, self := st.self,
          aNetListItems := st.aNetListItems ++ scalarCopies st.self gp st.member_offset ts } := by
  induction ts with
  | nil =>
      intro fuel st hc _ _ _
      rw [busLoop_nil env gp fuel st hc]
      simp [scalarCopies]
  | cons t ts ih =>
      intro fuel st hc hs hf hp
      cases fuel with
      | zero => simp at hf
      | succ k =>
          have ht := hp t (List.mem_cons_self t ts)
          rw [busLoop_cons env gp k st _ t ts hc
              (busMemberStep_scalar_next env gp st t ts ht.1 ht.2 hs),
            ih k _ rfl rfl (by simpa using hf) (fun u hu => hp u (List.mem_cons_of_mem t hu))]
          simp [scalarCopies]

/-- The member numbers of the direct-vector path do not depend on the label. -/
theorem convert_vector_members (env : BusEnv) (fuel : Nat) (self : NETLIST_OBJECT)
    (items : List NETLIST_OBJECT) (memberType : NETLIST_ITEM) (name : String)
    (members : List String)
    (hT : busMemberType self.m_Type = some memberType)
    (hA : env.GetBusAlias self.m_Label = none)
    (hG : env.ParseBusGroup self.m_Label = none)
    (hV : env.ParseBusVector self.m_Label = some (name, members)) :
    (ConvertBusToNetListItems env fuel self items).records.map (fun o => o.m_Member) =
      if toLong env.VectorEnd < LONG_MAX then
        toInt (toLong env.VectorStart) :: (items.map (fun o => o.m_Member) ++
          (List.range (toLong env.VectorEnd + 1 - toLong (toLong env.VectorStart + 1)).toNat).map
            (fun (i : Nat) => toInt (toLong (toLong env.VectorStart + 1) + (i : Int))))
      else self.m_Member :: items.map (fun o => o.m_Member) := by
  by_cases hE : toLong env.VectorEnd < LONG_MAX
  · rw [convert_vector env fuel self items memberType name members hT hA hG hV hE, if_pos hE]
    simp [BusResult.records, fillRecords, Function.comp_def]
  · rw [convert_vector_endless env fuel self items memberType name members hT hA hG hV hE,
      if_neg hE]
    simp [BusResult.records]

/-- C1 (the program departs from it): the direct-vector path takes the range from
the fresh connection and not from the label, so for no answer of the fresh
connection are the member numbers of `D[0..1]` the integers 0, 1 and those of
`D[1..2]` the integers 1, 2; with a connection that answers 0 and 0 the label
`D[1..2]` leaves the single record `D1` with member number 0. -/
theorem C1_vector_range_not_taken_from_label :
    (∀ (vs ve : Int) (fuel : Nat),
      ¬ (((ConvertBusToNetListItems (specEnv [] vs ve) fuel
            (labelObject NETLIST_ITEM.LABEL "D[0..1]") []).records.map
              (fun o => o.m_Member)).Perm [0, 1] ∧
         ((ConvertBusToNetListItems (specEnv [] vs ve) fuel
            (labelObject NETLIST_ITEM.LABEL "D[1..2]") []).records.map
              (fun o => o.m_Member)).Perm [1, 2])) ∧
    (ConvertBusToNetListItems (specEnv [] 0 0) 0
        (labelObject NETLIST_ITEM.LABEL "D[1..2]") []).records.map labelAndMember
      = [("D1", 0)] := by
  refine ⟨?_, by decide⟩
  intro vs ve fuel ⟨h1, h2⟩
  rw [convert_vector_members (specEnv [] vs ve) fuel
    (labelObject NETLIST_ITEM.LABEL "D[0..1]") [] NETLIST_ITEM.BUSLABELMEMBER
    "D" ["D0", "D1"] rfl rfl rfl rfl] at h1
  rw [convert_vector_members (specEnv [] vs ve) fuel
    (labelObject NETLIST_ITEM.LABEL "D[1..2]") [] NETLIST_ITEM.BUSLABELMEMBER
    "D" ["D1", "D2"] rfl rfl rfl rfl] at h2
  have h3 : ([0, 1] : List Int).Perm [1, 2] := h1.symm.trans h2
  have h4 : (0 : Int) ∈ ([1, 2] : List Int) := h3.subset (by simp)
  simp at h4

/-- C2 (the program departs from it): for a descending label too the number of
records comes from the fresh connection and not from the label, so for no answer of
the fresh connection does `D[2..1]` leave 2 records and `D[3..1]` leave 3; with a
connection that answers 0 and 0 the label `D[3..1]` leaves one record, and so it does
with a connection that answers the very range 3 and 1, the loop of `fillBusVector`
counting upwards only. -/
theorem C2_descending_range_not_expanded :
    (∀ (vs ve : Int) (fuel : Nat),
      ¬ ((ConvertBusToNetListItems (specEnv [] vs ve) fuel
            (labelObject NETLIST_ITEM.LABEL "D[2..1]") []).records.length = 2 ∧
         (ConvertBusToNetListItems (specEnv [] vs ve) fuel
            (labelObject NETLIST_ITEM.LABEL "D[3..1]") []).records.length = 3)) ∧
    (ConvertBusToNetListItems (specEnv [] 0 0) 0
        (labelObject NETLIST_ITEM.LABEL "D[3..1]") []).records.map (fun o => o.m_Member)
      = [0] ∧
    (ConvertBusToNetListItems (specEnv [] 3 1) 0
        (labelObject NETLIST_ITEM.LABEL "D[3..1]") []).records.map (fun o => o.m_Member)
      = [3] := by
  refine ⟨?_, by decide, by decide⟩
  intro vs ve fuel ⟨h1, h2⟩
  have e1 := congrArg List.length (convert_vector_members (specEnv [] vs ve) fuel
    (labelObject NETLIST_ITEM.LABEL "D[2..1]") [] NETLIST_ITEM.BUSLABELMEMBER
    "D" ["D2", "D1"] rfl rfl rfl rfl)
  have e2 := congrArg List.length (convert_vector_members (specEnv [] vs ve) fuel
    (labelObject NETLIST_ITEM.LABEL "D[3..1]") [] NETLIST_ITEM.BUSLABELMEMBER
    "D" ["D3", "D2", "D1"] rfl rfl rfl rfl)
  simp only [List.length_map] at e1 e2
  rw [e1] at h1
  rw [e2] at h2
  by_cases hE : toLong (specEnv [] vs ve).VectorEnd < LONG_MAX
  · simp only [if_pos hE] at h1 h2
    simp at h1 h2
    omega
  · simp only [if_neg hE] at h1 h2
    simp at h1

theorem toLong_lt_of_ne (x : Int) (h : toLong x ≠ LONG_MAX) : toLong x < LONG_MAX := by
  have := (toLong_range x).2
  unfold LONG_MAX at h ⊢
  omega

/-- A group of a vector member followed by a plain scalar member, the end of the range
of the fresh connection below the largest `long`: the object itself takes the first
entry of the member list of the vector, unprefixed; the copies for the vector start
two above the start of the range. -/
theorem convert_vector_then_scalar (env : BusEnv) (fuel : Nat) (self : NETLIST_OBJECT)
    (items : List NETLIST_OBJECT) (memberType : NETLIST_ITEM) (group_name v c pfx : String)
    (members : List String)
    (hB : env.IsBusLabel self.m_Label = true)
    (hT : busMemberType self.m_Type = some memberType)
    (hG : busGroupOf env self.m_Label = some (group_name, [v, c]))
    (hV : env.ParseBusVector v = some (pfx, members))
    (hC : env.ParseBusVector c = none) (hCA : env.GetBusAlias c = none)
    (hE : toLong env.VectorEnd < LONG_MAX) :
    ConvertBusToNetListItems env (fuel + 2) self items =
      { status := BusStatus.done
        self := { self with m_Type := memberType, m_Label := members.headD "",
                            m_Member := toInt (toLong (toLong env.VectorStart + 0)) }
        aNetListItems := (items ++
          fillRecords { self with m_Type := memberType }
            ((if group_name ≠ "" then group_name ++ "." else "") ++ pfx)
            (toLong (toLong (toLong env.VectorStart + 1) + 1)) (toLong env.VectorEnd)) ++
          [{ self with
                m_Type := memberType
                m_Label := (if group_name ≠ "" then group_name ++ "." else "") ++ c
                m_Member := toInt (toLong (toLong (0 + 1) +
                  toLong ((toLong (toLong env.VectorEnd -
                    toLong (toLong (toLong env.VectorStart + 1) + 1))).natAbs : Int))) }] } := by
  rw [convert_group env (fuel + 2) self items memberType group_name [v, c] hB hT hG,
    busLoop_cons env _ (fuel + 1) _ _ v [c] rfl
      (busMemberStep_vector_first env _ _ v [c] pfx members hV rfl hE),
    busLoop_cons env _ fuel _ _ c [] rfl
      (busMemberStep_scalar_next env _ _ c [] hC hCA rfl),
    busLoop_nil env _ fuel _ rfl]

/-- A group whose first member is a vector, when the fresh connection answers the
largest `long` as the end of its range: the call does not return, whatever the bound. -/
theorem convert_vector_first_endless (env : BusEnv) (fuel : Nat) (self : NETLIST_OBJECT)
    (items : List NETLIST_OBJECT) (memberType : NETLIST_ITEM) (group_name v pfx : String)
    (rest members : List String)
    (hB : env.IsBusLabel self.m_Label = true)
    (hT : busMemberType self.m_Type = some memberType)
    (hG : busGroupOf env self.m_Label = some (group_name, v :: rest))
    (hV : env.ParseBusVector v = some (pfx, members))
    (hE : ¬ toLong env.VectorEnd < LONG_MAX) :
    ConvertBusToNetListItems env fuel self items =
      { status := BusStatus.unfinished
        self := { self with m_Type := memberType }
        aNetListItems := items } := by
  rw [convert_group env fuel self items memberType group_name (v :: rest) hB hT hG]
  cases fuel with
  | zero => rw [busLoop_out_of_fuel env _ _ v rest rfl]
  | succ k =>
      rw [busLoop_endless_turn env _ k _ v rest rfl
        (busMemberStep_vector_endless env _ _ v rest pfx members hV hE)]

/-- A group of plain scalar members, named or not: the object itself takes the first
member, one copy per further member is appended. -/
theorem convert_group_of_scalars (env : BusEnv) (fuel : Nat) (self : NETLIST_OBJECT)
    (items : List NETLIST_OBJECT) (memberType : NETLIST_ITEM) (group_name t0 : String)
    (ts : List String)
    (hB : env.IsBusLabel self.m_Label = true)
    (hT : busMemberType self.m_Type = some memberType)
    (hG : busGroupOf env self.m_Label = some (group_name, t0 :: ts))
    (hP : ∀ t ∈ t0 :: ts, env.ParseBusVector t = none ∧ env.GetBusAlias t = none)
    (hF : (t0 :: ts).length ≤ fuel) :
    ConvertBusToNetListItems env fuel self items =
      { status := BusStatus.done
        self := { self with
          m_Type := memberType
          m_Label := (if group_name ≠ "" then group_name ++ "." else "") ++ t0
          m_Member := 0 }
        aNetListItems := items ++
          scalarCopies { self with
              m_Type := memberType
              m_Label := (if group_name ≠ "" then group_name ++ "." else "") ++ t0
              m_Member := 0 }
            (if group_name ≠ "" then group_name ++ "." else "") 1 ts } := by
  rw [convert_group env fuel self items memberType group_name (t0 :: ts) hB hT hG]
  cases fuel with
  | zero => simp at hF
  | succ k =>
      have ht := hP t0 (List.mem_cons_self t0 ts)
      rw [busLoop_cons env _ k _ _ t0 ts rfl
          (busMemberStep_scalar_first env _ _ t0 ts ht.1 ht.2 rfl),
        busLoop_scalars env _ ts k _ rfl rfl (by simpa using hF)
          (fun u hu => hP u (List.mem_cons_of_mem t0 hu))]
      rfl

/-- The records of a group of plain scalar members: the members in their order, each
with the prefix of the group, numbered from 0, while the numbers are within the range
of `int`. -/
theorem convert_group_of_scalars_records (env : BusEnv) (fuel : Nat) (self : NETLIST_OBJECT)
    (items : List NETLIST_OBJECT) (memberType : NETLIST_ITEM) (group_name t0 : String)
    (ts : List String)
    (hB : env.IsBusLabel self.m_Label = true)
    (hT : busMemberType self.m_Type = some memberType)
    (hG : busGroupOf env self.m_Label = some (group_name, t0 :: ts))
    (hP : ∀ t ∈ t0 :: ts, env.ParseBusVector t = none ∧ env.GetBusAlias t = none)
    (hN : (t0 :: ts).length ≤ 2147483648)
    (hF : (t0 :: ts).length ≤ fuel) :
    (ConvertBusToNetListItems env fuel self items).status = BusStatus.done ∧
    (ConvertBusToNetListItems env fuel self items).self =
      { self with
          m_Type := memberType
          m_Label := (if group_name ≠ "" then group_name ++ "." else "") ++ t0
          m_Member := 0 } ∧
    ∃ app, (ConvertBusToNetListItems env fuel self items).aNetListItems = items ++ app ∧
      ((ConvertBusToNetListItems env fuel self items).self :: app).map labelAndMember =
        (t0 :: ts).enum.map (fun p =>
          ((if group_name ≠ "" then group_name ++ "." else "") ++ p.2, (p.1 : Int))) := by
  rw [convert_group_of_scalars env fuel self items memberType group_name t0 ts hB hT hG hP hF]
  refine ⟨rfl, rfl, _, rfl, ?_⟩
  simp only [List.map_cons, List.enum, List.enumFrom_cons]
  have h := scalarCopies_labelAndMember
    { self with
        m_Type := memberType
        m_Label := (if group_name ≠ "" then group_name ++ "." else "") ++ t0
        m_Member := 0 }
    (if group_name ≠ "" then group_name ++ "." else "") ts 1
    (by simp only [List.length_cons] at hN; omega)
  simp only [Nat.cast_one] at h
  rw [h]
  simp [labelAndMember]

/-- C3, as stated, fails: the label `{A B C}` is an unnamed group of the plain scalar
members `A`, `B`, `C` and is also the name of an alias with the members `X` and `Y`;
the alias directory is asked first, and the call leaves the two records `X` and `Y`. -/
theorem C3_group_label_that_names_an_alias :
    (specEnv [("{A B C}", ["X", "Y"])] 0 0).ParseBusGroup "{A B C}"
      = some ("", ["A", "B", "C"]) ∧
    (∀ t ∈ ["A", "B", "C"],
      (specEnv [("{A B C}", ["X", "Y"])] 0 0).ParseBusVector t = none ∧
      (specEnv [("{A B C}", ["X", "Y"])] 0 0).GetBusAlias t = none) ∧
    (ConvertBusToNetListItems (specEnv [("{A B C}", ["X", "Y"])] 0 0) 3
        (labelObject NETLIST_ITEM.LABEL "{A B C}") []).status = BusStatus.done ∧
    (ConvertBusToNetListItems (specEnv [("{A B C}", ["X", "Y"])] 0 0) 3
        (labelObject NETLIST_ITEM.LABEL "{A B C}") []).records.map labelAndMember
      = [("X", 0), ("Y", 1)] := by
  decide

/-- C3, amended: an unnamed group of `n ≥ 1` plain scalar members `t0, ts` (none a
vector, none an alias name) whose label is not itself the name of an alias, `n` at
most 2^31 so that the member numbers are within the range of `int`: with `n` turns of
the loop or more the call ends, the object itself gets the label `t0` and member
number 0, and the records appended to the list carry the labels of `ts` unprefixed and
the member numbers 1, 2, ... in order, so that `n` records result. -/
theorem C3_unnamed_group_of_scalars (env : BusEnv) (fuel : Nat) (self : NETLIST_OBJECT)
    (items : List NETLIST_OBJECT) (memberType : NETLIST_ITEM) (t0 : String)
    (ts : List String)
    (hT : busMemberType self.m_Type = some memberType)
    (hA : env.GetBusAlias self.m_Label = none)
    (hG : env.ParseBusGroup self.m_Label = some ("", t0 :: ts))
    (hP : ∀ t ∈ t0 :: ts, env.ParseBusVector t = none ∧ env.GetBusAlias t = none)
    (hN : (t0 :: ts).length ≤ 2147483648)
    (hF : (t0 :: ts).length ≤ fuel) :
    (ConvertBusToNetListItems env fuel self items).status = BusStatus.done ∧
    (ConvertBusToNetListItems env fuel self items).self =
      { self with m_Type := memberType, m_Label := t0, m_Member := 0 } ∧
    ∃ app, (ConvertBusToNetListItems env fuel self items).aNetListItems = items ++ app ∧
      ((ConvertBusToNetListItems env fuel self items).self :: app).map labelAndMember =
        (t0 :: ts).enum.map (fun p => (p.2, (p.1 : Int))) := by
  have hB : env.IsBusLabel self.m_Label = true := by simp [BusEnv.IsBusLabel, hG]
  have hG2 : busGroupOf env self.m_Label = some ("", t0 :: ts) := by
    simp [busGroupOf, hA, hG]
  have h := convert_group_of_scalars_records env fuel self items memberType "" t0 ts hB hT hG2
    hP hN hF
  simpa [empty_append_string] using h

/-- C3, amended, on the group `{A B C}`: the records `A`, `B`, `C` with member numbers
0, 1, 2. -/
theorem C3_unnamed_group_of_scalars_witness :
    (ConvertBusToNetListItems (specEnv [] 0 0) 3
        (labelObject NETLIST_ITEM.LABEL "{A B C}") []).status = BusStatus.done ∧
    (ConvertBusToNetListItems (specEnv [] 0 0) 3
        (labelObject NETLIST_ITEM.LABEL "{A B C}") []).self =
      { labelObject NETLIST_ITEM.LABEL "{A B C}" with
          m_Type := NETLIST_ITEM.BUSLABELMEMBER, m_Label := "A", m_Member := 0 } ∧
    ∃ app, (ConvertBusToNetListItems (specEnv [] 0 0) 3
        (labelObject NETLIST_ITEM.LABEL "{A B C}") []).aNetListItems = [] ++ app ∧
      ((ConvertBusToNetListItems (specEnv [] 0 0) 3
        (labelObject NETLIST_ITEM.LABEL "{A B C}") []).self :: app).map labelAndMember =
        ["A", "B", "C"].enum.map (fun p => (p.2, (p.1 : Int))) :=
  C3_unnamed_group_of_scalars (specEnv [] 0 0) 3 (labelObject NETLIST_ITEM.LABEL "{A B C}") []
    NETLIST_ITEM.BUSLABELMEMBER "A" ["B", "C"] (by decide) (by decide) (by decide)
    (by decide) (by decide) (by decide)

/-- C4 (the program departs from it): in the named group `USB{A[0..1] C}` the
object itself gets the label `A0`, the first entry of the member list of the nested
vector, which does not begin with `USB.`; this is so whatever the fresh connection
answers, but for the end of range at which the call does not return (the largest
`long`), and then too the label of the object does not begin with `USB.`; the plain
members of `USB{DP DM}` do get the labels `USB.DP` and `USB.DM`. -/
theorem C4_first_vector_member_unprefixed :
    (∀ (vs ve : Int) (fuel : Nat),
      (toLong ve ≠ LONG_MAX →
        (ConvertBusToNetListItems (specEnv [] vs ve) (fuel + 2)
          (labelObject NETLIST_ITEM.LABEL "USB{A[0..1] C}") []).status = BusStatus.done ∧
        (ConvertBusToNetListItems (specEnv [] vs ve) (fuel + 2)
          (labelObject NETLIST_ITEM.LABEL "USB{A[0..1] C}") []).self.m_Label = "A0") ∧
      ¬ ("USB.".toList <+: (ConvertBusToNetListItems (specEnv [] vs ve) (fuel + 2)
        (labelObject NETLIST_ITEM.LABEL "USB{A[0..1] C}") []).self.m_Label.toList)) ∧
    (∀ (vs ve : Int) (fuel : Nat),
      (ConvertBusToNetListItems (specEnv [] vs ve) (fuel + 2)
        (labelObject NETLIST_ITEM.LABEL "USB{DP DM}") []).records.map labelAndMember =
          [("USB.DP", 0), ("USB.DM", 1)]) := by
  refine ⟨?_, ?_⟩
  · intro vs ve fuel
    by_cases hE : toLong ve < LONG_MAX
    · rw [convert_vector_then_scalar (specEnv [] vs ve) fuel
        (labelObject NETLIST_ITEM.LABEL "USB{A[0..1] C}") [] NETLIST_ITEM.BUSLABELMEMBER
        "USB" "A[0..1]" "C" "A" ["A0", "A1"] rfl rfl rfl rfl rfl rfl hE]
      refine ⟨fun _ => ⟨rfl, rfl⟩, ?_⟩
      show ¬ ("USB.".toList <+: "A0".toList)
      decide
    · rw [convert_vector_first_endless (specEnv [] vs ve) (fuel + 2)
        (labelObject NETLIST_ITEM.LABEL "USB{A[0..1] C}") [] NETLIST_ITEM.BUSLABELMEMBER
        "USB" "A[0..1]" "A" ["C"] ["A0", "A1"] rfl rfl rfl rfl hE]
      refine ⟨fun h => absurd (toLong_lt_of_ne ve h) hE, ?_⟩
      show ¬ ("USB.".toList <+: "USB{A[0..1] C}".toList)
      decide
  · intro vs ve fuel
    rw [convert_group_of_scalars (specEnv [] vs ve) (fuel + 2)
      (labelObject NETLIST_ITEM.LABEL "USB{DP DM}") [] NETLIST_ITEM.BUSLABELMEMBER
      "USB" "DP" ["DM"] rfl rfl rfl
      (by
        intro t ht
        simp only [List.mem_cons, List.mem_singleton, List.not_mem_nil, or_false] at ht
        rcases ht with rfl | rfl <;> exact ⟨rfl, rfl⟩)
      (by simp)]
    rfl

/-- C5 (the program departs from it): for `BUS{A[0..1] C}` the call ends, unless the
fresh connection answers the largest `long` as the end of its range, and for no answer
of the fresh connection are the member numbers of the records 0, 1, 2; with a
connection that answers 0 and 0 two records result, `A0` with member number 0 and
`BUS.C` with member number 3, and no record for the member 1 of the vector. -/
theorem C5_nested_vector_members_not_sequential :
    (∀ (vs ve : Int) (fuel : Nat),
      (toLong ve ≠ LONG_MAX →
        (ConvertBusToNetListItems (specEnv [] vs ve) (fuel + 2)
          (labelObject NETLIST_ITEM.LABEL "BUS{A[0..1] C}") []).status = BusStatus.done) ∧
      (ConvertBusToNetListItems (specEnv [] vs ve) (fuel + 2)
        (labelObject NETLIST_ITEM.LABEL "BUS{A[0..1] C}") []).records.map
          (fun o => o.m_Member) ≠ [0, 1, 2]) ∧
    (ConvertBusToNetListItems (specEnv [] 0 0) 2
        (labelObject NETLIST_ITEM.LABEL "BUS{A[0..1] C}") []).records.map labelAndMember
      = [("A0", 0), ("BUS.C", 3)] := by
  refine ⟨?_, by decide⟩
  intro vs ve fuel
  by_cases hE : toLong ve < LONG_MAX
  · rw [convert_vector_then_scalar (specEnv [] vs ve) fuel
      (labelObject NETLIST_ITEM.LABEL "BUS{A[0..1] C}") [] NETLIST_ITEM.BUSLABELMEMBER
      "BUS" "A[0..1]" "C" "A" ["A0", "A1"] rfl rfl rfl rfl rfl rfl hE]
    refine ⟨fun _ => rfl, ?_⟩
    simp only [BusResult.records, fillRecords, List.map_cons, List.map_append, List.map_map,
      List.nil_append, List.map_nil, Function.comp_def]
    have hvs : (specEnv [] vs ve).VectorStart = vs := rfl
    have hve : (specEnv [] vs ve).VectorEnd = ve := rfl
    rw [hvs, hve]
    generalize (toLong ve + 1 - toLong (toLong (toLong vs + 1) + 1)).toNat = n
    intro h
    rcases n with _ | _ | n
    · simp at h
    · simp [List.range_succ] at h
      obtain ⟨h0, h1, _⟩ := h
      unfold toInt toLong at h0 h1
      omega
    · have := congrArg List.length h
      simp at this
  · rw [convert_vector_first_endless (specEnv [] vs ve) (fuel + 2)
      (labelObject NETLIST_ITEM.LABEL "BUS{A[0..1] C}") [] NETLIST_ITEM.BUSLABELMEMBER
      "BUS" "A[0..1]" "A" ["C"] ["A0", "A1"] rfl rfl rfl rfl hE]
    refine ⟨fun h => absurd (toLong_lt_of_ne ve h) hE, ?_⟩
    simp [BusResult.records]

/-- C6 (the program departs from it): with a connection that answers 0 and 0 the group
`{X A[0..1]}` leaves the records `X` and `A0`, both with member number 0; and
whenever the fresh connection answers a range of `long`s that is not empty and ends
below the largest `long`, the call on `{X A[0..1] B[0..1]}` ends and the two nested
vectors get the same member numbers. -/
theorem C6_member_numbers_repeat :
    (ConvertBusToNetListItems (specEnv [] 0 0) 2
        (labelObject NETLIST_ITEM.LABEL "{X A[0..1]}") []).records.map labelAndMember
      = [("X", 0), ("A0", 0)] ∧
    (∀ (vs ve : Int) (fuel : Nat), -9223372036854775808 ≤ vs → vs ≤ ve → ve < LONG_MAX →
      (ConvertBusToNetListItems (specEnv [] vs ve) (fuel + 3)
        (labelObject NETLIST_ITEM.LABEL "{X A[0..1] B[0..1]}") []).status = BusStatus.done ∧
      ¬ ((ConvertBusToNetListItems (specEnv [] vs ve) (fuel + 3)
        (labelObject NETLIST_ITEM.LABEL "{X A[0..1] B[0..1]}") []).records.map
          (fun o => o.m_Member)).Nodup) := by
  refine ⟨by decide, ?_⟩
  intro vs ve fuel hlo hle hhi
  have hs : toLong vs = vs := toLong_of_range vs hlo (by unfold LONG_MAX at hhi; omega)
  have he : toLong ve = ve := toLong_of_range ve (by omega) (by unfold LONG_MAX at hhi; omega)
  have hE : toLong (specEnv [] vs ve).VectorEnd < LONG_MAX := by
    show toLong ve < LONG_MAX
    rw [he]
    exact hhi
  rw [convert_group (specEnv [] vs ve) (fuel + 3)
      (labelObject NETLIST_ITEM.LABEL "{X A[0..1] B[0..1]}") [] NETLIST_ITEM.BUSLABELMEMBER
      "" ["X", "A[0..1]", "B[0..1]"] rfl rfl rfl,
    busLoop_cons (specEnv [] vs ve) _ (fuel + 2) _ _ "X" ["A[0..1]", "B[0..1]"] rfl
      (busMemberStep_scalar_first (specEnv [] vs ve) _ _ "X" ["A[0..1]", "B[0..1]"]
        rfl rfl rfl),
    busLoop_cons (specEnv [] vs ve) _ (fuel + 1) _ _ "A[0..1]" ["B[0..1]"] rfl
      (busMemberStep_vector_next (specEnv [] vs ve) _ _ "A[0..1]" ["B[0..1]"] "A" ["A0", "A1"]
        rfl rfl hE),
    busLoop_cons (specEnv [] vs ve) _ fuel _ _ "B[0..1]" [] rfl
      (busMemberStep_vector_next (specEnv [] vs ve) _ _ "B[0..1]" [] "B" ["B0", "B1"]
        rfl rfl hE),
    busLoop_nil (specEnv [] vs ve) _ fuel _ rfl]
  refine ⟨rfl, ?_⟩
  simp only [BusResult.records, fillRecords, List.map_cons, List.map_append, List.map_map,
    List.nil_append, Function.comp_def]
  have hvs : (specEnv [] vs ve).VectorStart = vs := rfl
  have hve : (specEnv [] vs ve).VectorEnd = ve := rfl
  rw [hvs, hve, hs, he]
  intro h
  have h2 := (List.nodup_cons.1 h).2
  have h3 := (List.nodup_append.1 h2).2.2
  have hmem : toInt vs ∈ List.map (fun (x : Nat) => toInt (vs + (x : Int)))
      (List.range (ve + 1 - vs).toNat) := by
    refine List.mem_map.2 ⟨0, ?_, by simp⟩
    rw [List.mem_range]
    omega
  exact h3 hmem hmem

/-- C7 (the program departs from it): the records appended for `BUS{A[0..1] C}` and
for `BUS{A[1..2] C}` are the same, whatever the fresh connection answers and whatever
the list held, so they are not the further members of both; with a connection that
answers 0 and 0 and a list that holds one object, that object stays first, the object
itself becomes `A0`, and `BUS.C` alone is appended: the member 1 of the vector gets no
record; nor does it with a connection that answers the very range 0 and 1. -/
theorem C7_second_vector_member_not_appended :
    (∀ (vs ve : Int) (fuel : Nat) (items : List NETLIST_OBJECT),
      (ConvertBusToNetListItems (specEnv [] vs ve) (fuel + 2)
        (labelObject NETLIST_ITEM.LABEL "BUS{A[0..1] C}") items).aNetListItems =
      (ConvertBusToNetListItems (specEnv [] vs ve) (fuel + 2)
        (labelObject NETLIST_ITEM.LABEL "BUS{A[1..2] C}") items).aNetListItems) ∧
    (ConvertBusToNetListItems (specEnv [] 0 0) 2
        (labelObject NETLIST_ITEM.LABEL "BUS{A[0..1] C}")
        [labelObject NETLIST_ITEM.PIN "P"]).records.map labelAndMember
      = [("A0", 0), ("P", 0), ("BUS.C", 3)] ∧
    (ConvertBusToNetListItems (specEnv [] 0 1) 2
        (labelObject NETLIST_ITEM.LABEL "BUS{A[0..1] C}")
        [labelObject NETLIST_ITEM.PIN "P"]).records.map labelAndMember
      = [("A0", 0), ("P", 0), ("BUS.C", 2)] := by
  refine ⟨?_, by decide, by decide⟩
  intro vs ve fuel items
  by_cases hE : toLong ve < LONG_MAX
  · rw [convert_vector_then_scalar (specEnv [] vs ve) fuel
        (labelObject NETLIST_ITEM.LABEL "BUS{A[0..1] C}") items NETLIST_ITEM.BUSLABELMEMBER
        "BUS" "A[0..1]" "C" "A" ["A0", "A1"] rfl rfl rfl rfl rfl rfl hE,
      convert_vector_then_scalar (specEnv [] vs ve) fuel
        (labelObject NETLIST_ITEM.LABEL "BUS{A[1..2] C}") items NETLIST_ITEM.BUSLABELMEMBER
        "BUS" "A[1..2]" "C" "A" ["A1", "A2"] rfl rfl rfl rfl rfl rfl hE]
    rfl
  · rw [convert_vector_first_endless (specEnv [] vs ve) (fuel + 2)
        (labelObject NETLIST_ITEM.LABEL "BUS{A[0..1] C}") items NETLIST_ITEM.BUSLABELMEMBER
        "BUS" "A[0..1]" "A" ["C"] ["A0", "A1"] rfl rfl rfl rfl hE,
      convert_vector_first_endless (specEnv [] vs ve) (fuel + 2)
        (labelObject NETLIST_ITEM.LABEL "BUS{A[1..2] C}") items NETLIST_ITEM.BUSLABELMEMBER
        "BUS" "A[1..2]" "A" ["C"] ["A1", "A2"] rfl rfl rfl rfl hE]

theorem busMemberType_of_member (t memberType : NETLIST_ITEM)
    (h : busMemberType t = some memberType) : busMemberType memberType = none := by
  cases t <;> simp [busMemberType] at h <;> subst h <;> rfl

/-- A call on a label that is a bus form and a kind that has no "-member" kind is
rejected and changes nothing. -/
theorem convert_invalid_expansion (env : BusEnv) (fuel : Nat) (self : NETLIST_OBJECT)
    (items : List NETLIST_OBJECT)
    (hB : env.IsBusLabel self.m_Label = true) (hT : busMemberType self.m_Type = none) :
    ConvertBusToNetListItems env fuel self items =
      { status := BusStatus.InvalidBusExpansion, self := self, aNetListItems := items } := by
  unfold ConvertBusToNetListItems
  simp only [hB, hT]
  simp only [Bool.true_eq_false, if_false]

/-- A call on a label that is no bus form is rejected and changes nothing. -/
theorem convert_invalid_label (env : BusEnv) (fuel : Nat) (self : NETLIST_OBJECT)
    (items : List NETLIST_OBJECT) (hB : env.IsBusLabel self.m_Label = false) :
    ConvertBusToNetListItems env fuel self items =
      { status := BusStatus.InvalidBusLabel, self := self, aNetListItems := items } := by
  unfold ConvertBusToNetListItems
  simp only [hB, if_true]

/-- A call that ends in `done` or is still in the loop was made on a bus label and on
a kind that has a "-member" kind, which the object now has. -/
theorem convert_accepted (env : BusEnv) (fuel : Nat) (self : NETLIST_OBJECT)
    (items : List NETLIST_OBJECT)
    (h : (ConvertBusToNetListItems env fuel self items).status = BusStatus.done ∨
      (ConvertBusToNetListItems env fuel self items).status = BusStatus.unfinished) :
    env.IsBusLabel self.m_Label = true ∧
    busMemberType self.m_Type =
      some (ConvertBusToNetListItems env fuel self items).self.m_Type := by
  cases hB : env.IsBusLabel self.m_Label with
  | false =>
      rw [convert_invalid_label env fuel self items hB] at h
      simp at h
  | true =>
      cases hT : busMemberType self.m_Type with
      | none =>
          rw [convert_invalid_expansion env fuel self items hB hT] at h
          simp at h
      | some memberType =>
          exact ⟨rfl, by rw [(convert_type env fuel self items memberType hB hT).1]⟩

/-- Without a group the call does not enter the loop: the bound plays no part. -/
theorem convert_no_group (env : BusEnv) (fuel fuel2 : Nat) (self : NETLIST_OBJECT)
    (items : List NETLIST_OBJECT) (hG : busGroupOf env self.m_Label = none) :
    ConvertBusToNetListItems env fuel self items =
      ConvertBusToNetListItems env fuel2 self items := by
  unfold ConvertBusToNetListItems
  simp only [hG]

/-- Once a call has ended within the bound on the turns of the loop, a larger bound
gives the same result. -/
theorem convert_done_mono (env : BusEnv) (fuel : Nat) (self : NETLIST_OBJECT)
    (items : List NETLIST_OBJECT)
    (h : (ConvertBusToNetListItems env fuel self items).status = BusStatus.done) (k : Nat) :
    ConvertBusToNetListItems env (fuel + k) self items =
      ConvertBusToNetListItems env fuel self items := by
  obtain ⟨hB, hT⟩ := convert_accepted env fuel self items (Or.inl h)
  cases hG : busGroupOf env self.m_Label with
  | none => exact convert_no_group env _ _ self items hG
  | some g =>
      obtain ⟨group_name, members⟩ := g
      rw [convert_group env fuel self items _ group_name members hB hT hG] at h
      rw [convert_group env (fuel + k) self items _ group_name members hB hT hG]
      conv_rhs => rw [convert_group env fuel self items _ group_name members hB hT hG]
      exact busLoop_done_mono env _ fuel _ h k

/-- C8: on a label that is a bus form the call turns the kind `HIERLABEL` into
`HIERBUSLABELMEMBER`, `GLOBLABEL` into `GLOBBUSLABELMEMBER`, `SHEETLABEL` into
`SHEETBUSLABELMEMBER` and `LABEL` into `BUSLABELMEMBER`, at every stage of the call and
without rejecting it; on every other kind the call is rejected as an invalid bus
expansion and leaves the object, with its kind, label and member number, and the list
as they were. -/
theorem C8_kind_reclassification (env : BusEnv) (fuel : Nat) (self : NETLIST_OBJECT)
    (items : List NETLIST_OBJECT) (hB : env.IsBusLabel self.m_Label = true) :
    (self.m_Type = NETLIST_ITEM.HIERLABEL →
      (ConvertBusToNetListItems env fuel self items).self.m_Type =
        NETLIST_ITEM.HIERBUSLABELMEMBER ∧
      ((ConvertBusToNetListItems env fuel self items).status = BusStatus.done ∨
        (ConvertBusToNetListItems env fuel self items).status = BusStatus.unfinished)) ∧
    (self.m_Type = NETLIST_ITEM.GLOBLABEL →
      (ConvertBusToNetListItems env fuel self items).self.m_Type =
        NETLIST_ITEM.GLOBBUSLABELMEMBER ∧
      ((ConvertBusToNetListItems env fuel self items).status = BusStatus.done ∨
        (ConvertBusToNetListItems env fuel self items).status = BusStatus.unfinished)) ∧
    (self.m_Type = NETLIST_ITEM.SHEETLABEL →
      (ConvertBusToNetListItems env fuel self items).self.m_Type =
        NETLIST_ITEM.SHEETBUSLABELMEMBER ∧
      ((ConvertBusToNetListItems env fuel self items).status = BusStatus.done ∨
        (ConvertBusToNetListItems env fuel self items).status = BusStatus.unfinished)) ∧
    (self.m_Type = NETLIST_ITEM.LABEL →
      (ConvertBusToNetListItems env fuel self items).self.m_Type =
        NETLIST_ITEM.BUSLABELMEMBER ∧
      ((ConvertBusToNetListItems env fuel self items).status = BusStatus.done ∨
        (ConvertBusToNetListItems env fuel self items).status = BusStatus.unfinished)) ∧
    (self.m_Type ≠ NETLIST_ITEM.HIERLABEL → self.m_Type ≠ NETLIST_ITEM.GLOBLABEL →
      self.m_Type ≠ NETLIST_ITEM.SHEETLABEL → self.m_Type ≠ NETLIST_ITEM.LABEL →
      ConvertBusToNetListItems env fuel self items =
        { status := BusStatus.InvalidBusExpansion, self := self, aNetListItems := items }) := by
  refine ⟨?_, ?_, ?_, ?_, ?_⟩
  · intro h
    exact convert_type env fuel self items _ hB (by rw [h]; rfl)
  · intro h
    exact convert_type env fuel self items _ hB (by rw [h]; rfl)
  · intro h
    exact convert_type env fuel self items _ hB (by rw [h]; rfl)
  · intro h
    exact convert_type env fuel self items _ hB (by rw [h]; rfl)
  · intro h1 h2 h3 h4
    apply convert_invalid_expansion env fuel self items hB
    cases hk : self.m_Type <;> simp_all [busMemberType]

/-- C8 on a hierarchical label `{A B C}`: it becomes a hierarchical bus label member. -/
theorem C8_kind_reclassification_witness :
    (specEnv [] 0 0).IsBusLabel (labelObject NETLIST_ITEM.HIERLABEL "{A B C}").m_Label = true ∧
    (ConvertBusToNetListItems (specEnv [] 0 0) 3
      (labelObject NETLIST_ITEM.HIERLABEL "{A B C}") []).self.m_Type =
        NETLIST_ITEM.HIERBUSLABELMEMBER ∧
    (ConvertBusToNetListItems (specEnv [] 0 0) 3
      (labelObject NETLIST_ITEM.HIERLABEL "{A B C}") []).status = BusStatus.done :=
  ⟨by decide,
   ((C8_kind_reclassification (specEnv [] 0 0) 3
      (labelObject NETLIST_ITEM.HIERLABEL "{A B C}") [] (by decide)).1 rfl).1,
   by decide⟩

/-- C9: on a label that is no bus form the call is rejected as an invalid bus label,
whatever the kind of the object, and the object with all its fields and the list are
as they were. -/
theorem C9_not_a_bus_label_rejected (env : BusEnv) (fuel : Nat) (self : NETLIST_OBJECT)
    (items : List NETLIST_OBJECT) (hB : env.IsBusLabel self.m_Label = false) :
    ConvertBusToNetListItems env fuel self items =
      { status := BusStatus.InvalidBusLabel, self := self, aNetListItems := items } :=
  convert_invalid_label env fuel self items hB

/-- C9 on the global label `CLK`: rejected, the object and the list are as before. -/
theorem C9_not_a_bus_label_rejected_witness :
    (specEnv [] 0 0).IsBusLabel (labelObject NETLIST_ITEM.GLOBLABEL "CLK").m_Label = false ∧
    ConvertBusToNetListItems (specEnv [] 0 0) 5 (labelObject NETLIST_ITEM.GLOBLABEL "CLK")
        [labelObject NETLIST_ITEM.PIN "P"] =
      { status := BusStatus.InvalidBusLabel
        self := labelObject NETLIST_ITEM.GLOBLABEL "CLK"
        aNetListItems := [labelObject NETLIST_ITEM.PIN "P"] } :=
  ⟨by decide,
   C9_not_a_bus_label_rejected (specEnv [] 0 0) 5 (labelObject NETLIST_ITEM.GLOBLABEL "CLK")
     [labelObject NETLIST_ITEM.PIN "P"] (by decide)⟩

/-- C10, as stated, fails: the group `{AL}` whose only member is the alias `AL`
without members is expanded with success and leaves the label as it was, a bus form;
the second call on the object is rejected as an invalid bus expansion, not as an
invalid bus label. -/
theorem C10_second_call_not_always_invalid_label :
    (ConvertBusToNetListItems (specEnv [("AL", [])] 0 0) 1
      (labelObject NETLIST_ITEM.LABEL "{AL}") []).status = BusStatus.done ∧
    (ConvertBusToNetListItems (specEnv [("AL", [])] 0 0) 1
      (ConvertBusToNetListItems (specEnv [("AL", [])] 0 0) 1
        (labelObject NETLIST_ITEM.LABEL "{AL}") []).self
      (ConvertBusToNetListItems (specEnv [("AL", [])] 0 0) 1
        (labelObject NETLIST_ITEM.LABEL "{AL}") []).aNetListItems).status
      = BusStatus.InvalidBusExpansion := by
  decide

/-- C10, amended: after a call that ended with success, a further call on the object
or on any record that call appended is rejected and changes nothing; it is rejected
as an invalid bus label when the label of the record is no bus form, and as an invalid
bus expansion when it is one, the kind being a "-member" kind by then. -/
theorem C10_expansion_not_applied_twice (env : BusEnv) (fuel fuel2 : Nat)
    (self o : NETLIST_OBJECT) (items app items2 : List NETLIST_OBJECT)
    (hS : (ConvertBusToNetListItems env fuel self items).status = BusStatus.done)
    (hI : (ConvertBusToNetListItems env fuel self items).aNetListItems = items ++ app)
    (hO : o = (ConvertBusToNetListItems env fuel self items).self ∨ o ∈ app) :
    (env.IsBusLabel o.m_Label = false →
      (ConvertBusToNetListItems env fuel2 o items2).status = BusStatus.InvalidBusLabel) ∧
    (env.IsBusLabel o.m_Label = true →
      (ConvertBusToNetListItems env fuel2 o items2).status = BusStatus.InvalidBusExpansion) ∧
    (ConvertBusToNetListItems env fuel2 o items2).self = o ∧
    (ConvertBusToNetListItems env fuel2 o items2).aNetListItems = items2 := by
  obtain ⟨_, hT⟩ := convert_accepted env fuel self items (Or.inl hS)
  have hO2 : o.m_Type = (ConvertBusToNetListItems env fuel self items).self.m_Type := by
    rcases hO with rfl | hmem
    · rfl
    · obtain ⟨app2, hI2, hA2⟩ := convert_frame env fuel self items
      have : app = app2 := List.append_cancel_left (hI.symm.trans hI2)
      exact hA2 o (this ▸ hmem)
  have hN : busMemberType o.m_Type = none := by
    rw [hO2]
    exact busMemberType_of_member _ _ hT
  cases hB : env.IsBusLabel o.m_Label with
  | false =>
      rw [convert_invalid_label env fuel2 o items2 hB]
      simp
  | true =>
      rw [convert_invalid_expansion env fuel2 o items2 hB hN]
      simp

/-- C10, amended, on `USB{DP DM}`: a further call on the appended record `USB.DM` is
rejected as an invalid bus label. -/
theorem C10_expansion_not_applied_twice_witness :
    (ConvertBusToNetListItems (specEnv [] 0 0) 2
      (labelObject NETLIST_ITEM.LABEL "USB{DP DM}") []).status = BusStatus.done ∧
    (ConvertBusToNetListItems (specEnv [] 0 0) 7
      { labelObject NETLIST_ITEM.LABEL "USB{DP DM}" with
          m_Type := NETLIST_ITEM.BUSLABELMEMBER, m_Label := "USB.DM", m_Member := 1 }
      []).status = BusStatus.InvalidBusLabel :=
  ⟨by decide,
   (C10_expansion_not_applied_twice (specEnv [] 0 0) 2 7
      (labelObject NETLIST_ITEM.LABEL "USB{DP DM}")
      { labelObject NETLIST_ITEM.LABEL "USB{DP DM}" with
          m_Type := NETLIST_ITEM.BUSLABELMEMBER, m_Label := "USB.DM", m_Member := 1 }
      []
      [{ labelObject NETLIST_ITEM.LABEL "USB{DP DM}" with
          m_Type := NETLIST_ITEM.BUSLABELMEMBER, m_Label := "USB.DM", m_Member := 1 }]
      [] (by decide) (by decide) (Or.inr (by decide))).1 (by decide)⟩

/-! ## Aliases -/

/-- While the object itself is not set, the loop does not read its label: with
another label in its place the loop ends in the same way and appends the same
records, and leaves the same object unless it leaves the object as it found it. -/
theorem busLoop_label_blind (env : BusEnv) (gp : String) (otherLabel : String)
    (fuel : Nat) :
    ∀ (st : LoopState), st.self_set = false →
      (busLoop env gp fuel st).status =
        (busLoop env gp fuel
          { st with self := { st.self with m_Label := otherLabel } }).status ∧
      (busLoop env gp fuel st).aNetListItems =
        (busLoop env gp fuel
          { st with self := { st.self with m_Label := otherLabel } }).aNetListItems ∧
      ((busLoop env gp fuel st).self =
          (busLoop env gp fuel
            { st with self := { st.self with m_Label := otherLabel } }).self ∨
        ((busLoop env gp fuel st).self = st.self ∧
          (busLoop env gp fuel
            { st with self := { st.self with m_Label := otherLabel } }).self =
              { st.self with m_Label := otherLabel })) := by
  induction fuel with
  | zero =>
      intro st hS
      obtain ⟨s, its, bc, off, ss⟩ := st
      cases bc with
      | nil =>
          rw [busLoop_nil env gp 0 ⟨s, its, [], off, ss⟩ rfl,
            busLoop_nil env gp 0 ⟨{ s with m_Label := otherLabel }, its, [], off, ss⟩ rfl]
          exact ⟨rfl, rfl, Or.inr ⟨rfl, rfl⟩⟩
      | cons m rest =>
          rw [busLoop_out_of_fuel env gp ⟨s, its, m :: rest, off, ss⟩ m rest rfl,
            busLoop_out_of_fuel env gp
              ⟨{ s with m_Label := otherLabel }, its, m :: rest, off, ss⟩ m rest rfl]
          exact ⟨rfl, rfl, Or.inr ⟨rfl, rfl⟩⟩
  | succ k ih =>
      intro st hS
      obtain ⟨s, its, bc, off, ss⟩ := st
      simp only at hS
      subst hS
      cases bc with
      | nil =>
          rw [busLoop_nil env gp _ ⟨s, its, [], off, false⟩ rfl,
            busLoop_nil env gp _ ⟨{ s with m_Label := otherLabel }, its, [], off, false⟩ rfl]
          exact ⟨rfl, rfl, Or.inr ⟨rfl, rfl⟩⟩
      | cons m rest =>
          cases hV : env.ParseBusVector m with
          | some pm =>
              obtain ⟨pfx, members⟩ := pm
              by_cases hE : toLong env.VectorEnd < LONG_MAX
              · rw [busLoop_cons env gp k ⟨s, its, m :: rest, off, false⟩ _ m rest rfl
                    (busMemberStep_vector_first env gp ⟨s, its, m :: rest, off, false⟩ m rest
                      pfx members hV rfl hE),
                  busLoop_cons env gp k
                    ⟨{ s with m_Label := otherLabel }, its, m :: rest, off, false⟩ _ m rest rfl
                    (busMemberStep_vector_first env gp
                      ⟨{ s with m_Label := otherLabel }, its, m :: rest, off, false⟩ m rest
                      pfx members hV rfl hE)]
                exact ⟨rfl, rfl, Or.inl rfl⟩
              · rw [busLoop_endless_turn env gp k ⟨s, its, m :: rest, off, false⟩ m rest rfl
                    (busMemberStep_vector_endless env gp _ m rest pfx members hV hE),
                  busLoop_endless_turn env gp k
                    ⟨{ s with m_Label := otherLabel }, its, m :: rest, off, false⟩ m rest rfl
                    (busMemberStep_vector_endless env gp _ m rest pfx members hV hE)]
                exact ⟨rfl, rfl, Or.inr ⟨rfl, rfl⟩⟩
          | none =>
              cases hAl : env.GetBusAlias m with
              | some ms =>
                  rw [busLoop_cons env gp k ⟨s, its, m :: rest, off, false⟩ _ m rest rfl
                      (busMemberStep_alias env gp ⟨s, its, m :: rest, off, false⟩ m rest ms
                        hV hAl),
                    busLoop_cons env gp k
                      ⟨{ s with m_Label := otherLabel }, its, m :: rest, off, false⟩ _ m rest
                      rfl
                      (busMemberStep_alias env gp
                        ⟨{ s with m_Label := otherLabel }, its, m :: rest, off, false⟩ m rest ms
                        hV hAl)]
                  exact ih ⟨s, its, rest ++ ms, off, false⟩ rfl
              | none =>
                  rw [busLoop_cons env gp k ⟨s, its, m :: rest, off, false⟩ _ m rest rfl
                      (busMemberStep_scalar_first env gp ⟨s, its, m :: rest, off, false⟩ m rest
                        hV hAl rfl),
                    busLoop_cons env gp k
                      ⟨{ s with m_Label := otherLabel }, its, m :: rest, off, false⟩ _ m rest
                      rfl
                      (busMemberStep_scalar_first env gp
                        ⟨{ s with m_Label := otherLabel }, its, m :: rest, off, false⟩ m rest
                        hV hAl rfl)]
                  exact ⟨rfl, rfl, Or.inl rfl⟩

/-- C11, as stated, fails: the label `USB{DP DM}` is the name of an alias with the
members `X` and `Y` and parses as a group named `USB`; the call uses the members of
the alias and gives them no prefix: the records are `X` and `Y`, not `USB.X` and
`USB.Y`.  And a label that is the name of an alias but no bus form, as `AL` is, is
rejected as an invalid bus label: the members of the alias are not used. -/
theorem C11_alias_label_group_name_not_used :
    (specEnv [("USB{DP DM}", ["X", "Y"])] 0 0).GetBusAlias "USB{DP DM}" = some ["X", "Y"] ∧
    (specEnv [("USB{DP DM}", ["X", "Y"])] 0 0).ParseBusGroup "USB{DP DM}" =
      some ("USB", ["DP", "DM"]) ∧
    (ConvertBusToNetListItems (specEnv [("USB{DP DM}", ["X", "Y"])] 0 0) 2
        (labelObject NETLIST_ITEM.LABEL "USB{DP DM}") []).status = BusStatus.done ∧
    (ConvertBusToNetListItems (specEnv [("USB{DP DM}", ["X", "Y"])] 0 0) 2
        (labelObject NETLIST_ITEM.LABEL "USB{DP DM}") []).records.map labelAndMember =
      [("X", 0), ("Y", 1)] ∧
    (specEnv [("AL", ["X", "Y"])] 0 0).GetBusAlias "AL" = some ["X", "Y"] ∧
    ConvertBusToNetListItems (specEnv [("AL", ["X", "Y"])] 0 0) 2
        (labelObject NETLIST_ITEM.LABEL "AL") [] =
      { status := BusStatus.InvalidBusLabel
        self := labelObject NETLIST_ITEM.LABEL "AL"
        aNetListItems := [] } := by
  decide

/-- C11, amended: when the label of a label object is a bus form and is the name of an
alias, the call takes the members of the alias, in their order, as the members of the
group, and takes the empty group name whatever the group recogniser makes of the
label.  The call ends as the call on an unnamed group of these members does and
appends the same records; it leaves the same object too, unless no member was written
to the object, which then keeps its label.  When the members of the alias are `n ≥ 1`
plain scalar members `t0, ts` (`n` at most 2^31), the records are these members
unprefixed, in the order of the alias, with the member numbers 0, 1, 2, ... -/
theorem C11_alias_members_without_group_name (env : BusEnv) (fuel : Nat)
    (self : NETLIST_OBJECT) (items : List NETLIST_OBJECT) (memberType : NETLIST_ITEM)
    (alias_members : List String)
    (hB : env.IsBusLabel self.m_Label = true)
    (hT : busMemberType self.m_Type = some memberType)
    (hA : env.GetBusAlias self.m_Label = some alias_members) :
    (∀ otherLabel : String, env.GetBusAlias otherLabel = none →
      env.ParseBusGroup otherLabel = some ("", alias_members) →
      (ConvertBusToNetListItems env fuel self items).status =
        (ConvertBusToNetListItems env fuel { self with m_Label := otherLabel } items).status ∧
      (ConvertBusToNetListItems env fuel self items).aNetListItems =
        (ConvertBusToNetListItems env fuel
          { self with m_Label := otherLabel } items).aNetListItems ∧
      ((ConvertBusToNetListItems env fuel self items).self =
          (ConvertBusToNetListItems env fuel { self with m_Label := otherLabel } items).self ∨
        ((ConvertBusToNetListItems env fuel self items).self =
            { self with m_Type := memberType } ∧
          (ConvertBusToNetListItems env fuel { self with m_Label := otherLabel } items).self =
            { self with m_Type := memberType, m_Label := otherLabel }))) ∧
    (∀ (t0 : String) (ts : List String), alias_members = t0 :: ts →
      (∀ t ∈ t0 :: ts, env.ParseBusVector t = none ∧ env.GetBusAlias t = none) →
      (t0 :: ts).length ≤ 2147483648 → (t0 :: ts).length ≤ fuel →
      (ConvertBusToNetListItems env fuel self items).status = BusStatus.done ∧
      (ConvertBusToNetListItems env fuel self items).self =
        { self with m_Type := memberType, m_Label := t0, m_Member := 0 } ∧
      ∃ app, (ConvertBusToNetListItems env fuel self items).aNetListItems = items ++ app ∧
        ((ConvertBusToNetListItems env fuel self items).self :: app).map labelAndMember =
          (t0 :: ts).enum.map (fun p => (p.2, (p.1 : Int)))) := by
  have hG : busGroupOf env self.m_Label = some ("", alias_members) := by
    simp [busGroupOf, hA]
  refine ⟨?_, ?_⟩
  · intro otherLabel hA2 hPG2
    have hB2 : env.IsBusLabel otherLabel = true := by simp [BusEnv.IsBusLabel, hPG2]
    have hG2 : busGroupOf env otherLabel = some ("", alias_members) := by
      simp [busGroupOf, hA2, hPG2]
    rw [convert_group env fuel self items memberType "" alias_members hB hT hG,
      convert_group env fuel { self with m_Label := otherLabel } items memberType ""
        alias_members hB2 hT hG2]
    exact busLoop_label_blind env _ otherLabel fuel
      { self := { self with m_Type := memberType }, aNetListItems := items,
        bus_contents := alias_members, member_offset := 0, self_set := false } rfl
  · intro t0 ts hM hP hN hF
    subst hM
    have h := convert_group_of_scalars_records env fuel self items memberType "" t0 ts hB hT hG
      hP hN hF
    simpa [empty_append_string] using h

/-- C11, amended, on the alias `USB{DP DM}` with the members `X` and `Y`: the records
are `X` and `Y` with the member numbers 0 and 1, and the call appends what the call on
the unnamed group `{X Y}` appends. -/
theorem C11_alias_members_without_group_name_witness :
    ((ConvertBusToNetListItems (specEnv [("USB{DP DM}", ["X", "Y"])] 0 0) 2
        (labelObject NETLIST_ITEM.LABEL "USB{DP DM}") []).status = BusStatus.done ∧
      (ConvertBusToNetListItems (specEnv [("USB{DP DM}", ["X", "Y"])] 0 0) 2
        (labelObject NETLIST_ITEM.LABEL "USB{DP DM}") []).self =
        { labelObject NETLIST_ITEM.LABEL "USB{DP DM}" with
            m_Type := NETLIST_ITEM.BUSLABELMEMBER, m_Label := "X", m_Member := 0 } ∧
      ∃ app, (ConvertBusToNetListItems (specEnv [("USB{DP DM}", ["X", "Y"])] 0 0) 2
          (labelObject NETLIST_ITEM.LABEL "USB{DP DM}") []).aNetListItems = [] ++ app ∧
        ((ConvertBusToNetListItems (specEnv [("USB{DP DM}", ["X", "Y"])] 0 0) 2
          (labelObject NETLIST_ITEM.LABEL "USB{DP DM}") []).self :: app).map labelAndMember =
          ["X", "Y"].enum.map (fun p => (p.2, (p.1 : Int)))) ∧
    (ConvertBusToNetListItems (specEnv [("USB{DP DM}", ["X", "Y"])] 0 0) 2
        (labelObject NETLIST_ITEM.LABEL "USB{DP DM}") []).aNetListItems =
      (ConvertBusToNetListItems (specEnv [("USB{DP DM}", ["X", "Y"])] 0 0) 2
        (labelObject NETLIST_ITEM.LABEL "{X Y}") []).aNetListItems :=
  ⟨(C11_alias_members_without_group_name (specEnv [("USB{DP DM}", ["X", "Y"])] 0 0) 2
      (labelObject NETLIST_ITEM.LABEL "USB{DP DM}") [] NETLIST_ITEM.BUSLABELMEMBER ["X", "Y"]
      (by decide) (by decide) (by decide)).2 "X" ["Y"] rfl (by decide) (by decide) (by decide),
   ((C11_alias_members_without_group_name (specEnv [("USB{DP DM}", ["X", "Y"])] 0 0) 2
      (labelObject NETLIST_ITEM.LABEL "USB{DP DM}") [] NETLIST_ITEM.BUSLABELMEMBER ["X", "Y"]
      (by decide) (by decide) (by decide)).1 "{X Y}" (by decide) (by decide)).2.1⟩

/-- Two objects that are the same but for label and member number. -/
theorem copy_trans (o s1 s : NETLIST_OBJECT)
    (h1 : { o with m_Label := s.m_Label, m_Member := s.m_Member } = s)
    (h2 : { s1 with m_Label := s.m_Label, m_Member := s.m_Member } = s) :
    { o with m_Label := s1.m_Label, m_Member := s1.m_Member } = s1 := by
  cases o
  cases s1
  cases s
  simp only [NETLIST_OBJECT.mk.injEq] at h1 h2 ⊢
  obtain ⟨a1, a2, a3, a4, a5, a6, a7, a8, _, a10, a11, _, a13, a14, a15, a16⟩ := h1
  obtain ⟨b1, b2, b3, b4, b5, b6, b7, b8, _, b10, b11, _, b13, b14, b15, b16⟩ := h2
  exact ⟨a1.trans b1.symm, a2.trans b2.symm, a3.trans b3.symm, a4.trans b4.symm,
    a5.trans b5.symm, a6.trans b6.symm, a7.trans b7.symm, a8.trans b8.symm, trivial,
    a10.trans b10.symm, a11.trans b11.symm, trivial, a13.trans b13.symm, a14.trans b14.symm,
    a15.trans b15.symm, a16.trans b16.symm⟩

/-- One turn of the loop keeps this: the records appended so far differ from the
object itself in label and member number only, and none is appended before the object
itself is set. -/
theorem busMemberStep_copies (env : BusEnv) (gp : String) (st st1 : LoopState)
    (m : String) (rest : List String) (base app0 : List NETLIST_OBJECT)
    (hs : busMemberStep env gp st m rest = some st1)
    (hI : st.aNetListItems = base ++ app0)
    (h0 : st.self_set = false → app0 = [])
    (hA : ∀ o ∈ app0,
      { o with m_Label := st.self.m_Label, m_Member := st.self.m_Member } = st.self) :
    ∃ app, st1.aNetListItems = base ++ app ∧
      (st1.self_set = false → app = []) ∧
      ∀ o ∈ app,
        { o with m_Label := st1.self.m_Label, m_Member := st1.self.m_Member } = st1.self := by
  obtain ⟨app1, _, hSelf, hSet, hUnset, hI1, hA1, _, _⟩ :=
    busMemberStep_shape env gp st st1 m rest hs
  refine ⟨app0 ++ app1, by rw [hI1, hI, List.append_assoc], ?_, ?_⟩
  · intro h
    have hst : st.self_set = false := by
      cases hss : st.self_set with
      | false => rfl
      | true =>
          have := (hSet hss).2
          rw [h] at this
          cases this
    rw [h0 hst, (hUnset h).2]
    rfl
  · intro o ho
    rcases List.mem_append.1 ho with h1 | h1
    · exact copy_trans o st1.self st.self (hA o h1) hSelf
    · exact copy_trans o st1.self st.self (hA1 o h1) hSelf

/-- The loop keeps this: the records appended differ from the object itself in label
and member number only. -/
theorem busLoop_copies (env : BusEnv) (gp : String) (fuel : Nat)
    (base : List NETLIST_OBJECT) :
    ∀ (st : LoopState) (app0 : List NETLIST_OBJECT),
      st.aNetListItems = base ++ app0 →
      (st.self_set = false → app0 = []) →
      (∀ o ∈ app0,
        { o with m_Label := st.self.m_Label, m_Member := st.self.m_Member } = st.self) →
      ∃ app, (busLoop env gp fuel st).aNetListItems = base ++ app ∧
        ∀ o ∈ app,
          { o with m_Label := (busLoop env gp fuel st).self.m_Label,
                   m_Member := (busLoop env gp fuel st).self.m_Member } =
            (busLoop env gp fuel st).self := by
  induction fuel with
  | zero =>
      intro st app0 hI _ hA
      cases hc : st.bus_contents with
      | nil => rw [busLoop_nil env gp 0 st hc]; exact ⟨app0, hI, hA⟩
      | cons m rest => rw [busLoop_out_of_fuel env gp st m rest hc]; exact ⟨app0, hI, hA⟩
  | succ k ih =>
      intro st app0 hI h0 hA
      cases hc : st.bus_contents with
      | nil => rw [busLoop_nil env gp _ st hc]; exact ⟨app0, hI, hA⟩
      | cons m rest =>
          cases hs : busMemberStep env gp st m rest with
          | none =>
              rw [busLoop_endless_turn env gp k st m rest hc hs]
              exact ⟨app0, hI, hA⟩
          | some st1 =>
              rw [busLoop_cons env gp k st st1 m rest hc hs]
              obtain ⟨app1, hI1, h01, hA1⟩ :=
                busMemberStep_copies env gp st st1 m rest base app0 hs hI h0 hA
              exact ih _ app1 hI1 h01 hA1

/-- The records a call appends differ from the object itself, as the call leaves it,
in label and member number only. -/
theorem convert_copies (env : BusEnv) (fuel : Nat) (self : NETLIST_OBJECT)
    (items : List NETLIST_OBJECT) :
    ∃ app, (ConvertBusToNetListItems env fuel self items).aNetListItems = items ++ app ∧
      ∀ o ∈ app,
        { o with
            m_Label := (ConvertBusToNetListItems env fuel self items).self.m_Label,
            m_Member := (ConvertBusToNetListItems env fuel self items).self.m_Member } =
          (ConvertBusToNetListItems env fuel self items).self := by
  cases hB : env.IsBusLabel self.m_Label with
  | false =>
      rw [convert_invalid_label env fuel self items hB]
      exact ⟨[], by simp, by simp⟩
  | true =>
      cases hT : busMemberType self.m_Type with
      | none =>
          rw [convert_invalid_expansion env fuel self items hB hT]
          exact ⟨[], by simp, by simp⟩
      | some memberType =>
          cases hG : busGroupOf env self.m_Label with
          | some g =>
              obtain ⟨group_name, members⟩ := g
              rw [convert_group env fuel self items memberType group_name members hB hT hG]
              exact busLoop_copies env _ fuel items _ [] (by simp) (by simp) (by simp)
          | none =>
              cases hV : env.ParseBusVector self.m_Label with
              | some v =>
                  obtain ⟨name, members⟩ := v
                  have hA : env.GetBusAlias self.m_Label = none := by
                    unfold busGroupOf at hG
                    cases h : env.GetBusAlias self.m_Label with
                    | none => rfl
                    | some ms => simp [h] at hG
                  have hPG : env.ParseBusGroup self.m_Label = none := by
                    unfold busGroupOf at hG
                    simpa [hA] using hG
                  rw [convert_vector_fill env fuel self items memberType name members hT hA hPG
                    hV]
                  cases hF : fillBusVector
                      { self with m_Type := memberType, m_Label := members.headD "",
                                  m_Member := toInt (toLong env.VectorStart) }
                      items name (toLong (toLong env.VectorStart + 1)) (toLong env.VectorEnd)
                      0 with
                  | none => exact ⟨[], by simp, by simp⟩
                  | some l =>
                      obtain ⟨app, hl, hAp⟩ := fillBusVector_copies _ _ _ _ _ _ _ hF
                      exact ⟨app, hl, hAp⟩
              | none =>
                  exfalso
                  have hPG : env.ParseBusGroup self.m_Label = none := by
                    unfold busGroupOf at hG
                    cases h : env.GetBusAlias self.m_Label with
                    | none => simpa [h] using hG
                    | some ms => simp [h] at hG
                  simp [BusEnv.IsBusLabel, hV, hPG] at hB

/-- C13: the records a call appends agree with the object itself, as the call leaves
it, on every field but the label and the member number: kind, owner, link, sheet
path, included sheet path, end points, net codes, connection type, electrical pin type
and net name candidate are those of the object.  This holds at every stage of a call,
and so after every call that ended with success. -/
theorem C13_appended_records_copy_the_object (env : BusEnv) (fuel : Nat)
    (self : NETLIST_OBJECT) (items app : List NETLIST_OBJECT) (o : NETLIST_OBJECT)
    (hI : (ConvertBusToNetListItems env fuel self items).aNetListItems = items ++ app)
    (hO : o ∈ app) :
    { o with
        m_Label := (ConvertBusToNetListItems env fuel self items).self.m_Label,
        m_Member := (ConvertBusToNetListItems env fuel self items).self.m_Member } =
      (ConvertBusToNetListItems env fuel self items).self := by
  obtain ⟨app2, hI2, hA2⟩ := convert_copies env fuel self items
  have : app = app2 := List.append_cancel_left (hI.symm.trans hI2)
  exact hA2 o (this ▸ hO)

/-- C13 on the hierarchical label `USB{DP DM}` of sheet `S` with net code 7: the
appended record `USB.DM` is the object itself but for the label and the member
number. -/
theorem C13_appended_records_copy_the_object_witness :
    { ({ labelObject NETLIST_ITEM.HIERLABEL "USB{DP DM}" with
            m_Type := NETLIST_ITEM.HIERBUSLABELMEMBER, m_SheetPath := ["S"], m_netCode := 7,
            m_Label := "USB.DM", m_Member := 1 } : NETLIST_OBJECT) with
        m_Label := (ConvertBusToNetListItems (specEnv [] 0 0) 2
          { labelObject NETLIST_ITEM.HIERLABEL "USB{DP DM}" with
              m_SheetPath := ["S"], m_netCode := 7 } []).self.m_Label,
        m_Member := (ConvertBusToNetListItems (specEnv [] 0 0) 2
          { labelObject NETLIST_ITEM.HIERLABEL "USB{DP DM}" with
              m_SheetPath := ["S"], m_netCode := 7 } []).self.m_Member } =
      (ConvertBusToNetListItems (specEnv [] 0 0) 2
        { labelObject NETLIST_ITEM.HIERLABEL "USB{DP DM}" with
            m_SheetPath := ["S"], m_netCode := 7 } []).self :=
  C13_appended_records_copy_the_object (specEnv [] 0 0) 2
    { labelObject NETLIST_ITEM.HIERLABEL "USB{DP DM}" with m_SheetPath := ["S"], m_netCode := 7 }
    []
    [{ labelObject NETLIST_ITEM.HIERLABEL "USB{DP DM}" with
        m_Type := NETLIST_ITEM.HIERBUSLABELMEMBER, m_SheetPath := ["S"], m_netCode := 7,
        m_Label := "USB.DM", m_Member := 1 }]
    { labelObject NETLIST_ITEM.HIERLABEL "USB{DP DM}" with
        m_Type := NETLIST_ITEM.HIERBUSLABELMEMBER, m_SheetPath := ["S"], m_netCode := 7,
        m_Label := "USB.DM", m_Member := 1 }
    (by decide) (by decide)

/-! ## Connectivity of labels -/

/-- C14: `IsLabelConnected` never connects an object with itself, whatever its kind,
label and sheet path; a global label, whose label equals itself, is no exception. -/
theorem C14_not_connected_to_itself (store : ObjectStore) (a : Nat) :
    IsLabelConnected store a a = false := by
  simp [IsLabelConnected]

/-- C15: for two distinct objects, `a` a hierarchical label or hierarchical bus label
member and `b` a sheet label or sheet bus label member, `a.IsLabelConnected( b )` is
true exactly when the sheet path of `a` is the included sheet path of `b`; the labels
and member numbers of the two objects play no part. -/
theorem C15_hierarchical_label_to_sheet_label (store : ObjectStore) (a b : Nat)
    (hab : a ≠ b)
    (ha : (store a).m_Type = NETLIST_ITEM.HIERLABEL ∨
      (store a).m_Type = NETLIST_ITEM.HIERBUSLABELMEMBER)
    (hb : (store b).m_Type = NETLIST_ITEM.SHEETLABEL ∨
      (store b).m_Type = NETLIST_ITEM.SHEETBUSLABELMEMBER) :
    (IsLabelConnected store a b = true ↔
      (store a).m_SheetPath = (store b).m_SheetPathInclude) ∧
    ∀ (la lb : String) (ma mb : Int),
      IsLabelConnected
        (fun p =>
          if p = a then { store a with m_Label := la, m_Member := ma }
          else if p = b then { store b with m_Label := lb, m_Member := mb }
          else store p) a b = IsLabelConnected store a b := by
  have hba : ¬ b = a := fun h => hab h.symm
  constructor
  · simp [IsLabelConnected, hba, ha, hb]
  · intro la lb ma mb
    simp [IsLabelConnected, hba, ha, hb]

/-- C16: for two distinct global labels `a.IsLabelConnected( b )` is true exactly when
the two labels are the same text, whatever the sheet paths; so the predicate gives the
same answer in both orders. -/
theorem C16_global_labels_by_text (store : ObjectStore) (a b : Nat) (hab : a ≠ b)
    (ha : (store a).m_Type = NETLIST_ITEM.GLOBLABEL)
    (hb : (store b).m_Type = NETLIST_ITEM.GLOBLABEL) :
    (IsLabelConnected store a b = true ↔ (store a).m_Label = (store b).m_Label) ∧
    (∀ (pa pb ia ib : SCH_SHEET_PATH),
      IsLabelConnected
        (fun p =>
          if p = a then { store a with m_SheetPath := pa, m_SheetPathInclude := ia }
          else if p = b then { store b with m_SheetPath := pb, m_SheetPathInclude := ib }
          else store p) a b = IsLabelConnected store a b) ∧
    IsLabelConnected store a b = IsLabelConnected store b a := by
  have hba : ¬ b = a := fun h => hab h.symm
  refine ⟨?_, ?_, ?_⟩
  · simp [IsLabelConnected, hba, ha, hb]
  · intro pa pb ia ib
    simp [IsLabelConnected, hba, ha, hb]
  · simp [IsLabelConnected, hba, hab, ha, hb, eq_comm]

/-- C17: when the kinds of `a` and `b` are neither a hierarchical label or
hierarchical bus label member followed by a sheet label or sheet bus label member,
nor two global labels, `a.IsLabelConnected( b )` is false. -/
theorem C17_other_kinds_not_connected (store : ObjectStore) (a b : Nat)
    (h1 : ¬ (((store a).m_Type = NETLIST_ITEM.HIERLABEL ∨
        (store a).m_Type = NETLIST_ITEM.HIERBUSLABELMEMBER) ∧
      ((store b).m_Type = NETLIST_ITEM.SHEETLABEL ∨
        (store b).m_Type = NETLIST_ITEM.SHEETBUSLABELMEMBER)))
    (h2 : ¬ ((store a).m_Type = NETLIST_ITEM.GLOBLABEL ∧
      (store b).m_Type = NETLIST_ITEM.GLOBLABEL)) :
    IsLabelConnected store a b = false := by
  unfold IsLabelConnected
  by_cases hba : b = a
  · simp [hba]
  · simp only [hba, if_false]
    rw [if_neg h1, if_neg h2]

/-- C15 on the hierarchical label `CLK` of sheet `S` and a sheet pin `DATA` that
reaches into `S`: connected, though the labels differ. -/
theorem C15_hierarchical_label_to_sheet_label_witness :
    IsLabelConnected
      (storeOf [{ labelObject NETLIST_ITEM.HIERLABEL "CLK" with m_SheetPath := ["S"] },
        { labelObject NETLIST_ITEM.SHEETLABEL "DATA" with m_SheetPathInclude := ["S"] }])
      0 1 = true :=
  ((C15_hierarchical_label_to_sheet_label
      (storeOf [{ labelObject NETLIST_ITEM.HIERLABEL "CLK" with m_SheetPath := ["S"] },
        { labelObject NETLIST_ITEM.SHEETLABEL "DATA" with m_SheetPathInclude := ["S"] }])
      0 1 (by decide) (Or.inl (by decide)) (Or.inl (by decide))).1).2 (by decide)

/-- C16 on two global labels `VCC` of different sheets: connected in both orders. -/
theorem C16_global_labels_by_text_witness :
    IsLabelConnected
      (storeOf [{ labelObject NETLIST_ITEM.GLOBLABEL "VCC" with m_SheetPath := ["S"] },
        { labelObject NETLIST_ITEM.GLOBLABEL "VCC" with m_SheetPath := ["T"] }])
      0 1 = true ∧
    IsLabelConnected
      (storeOf [{ labelObject NETLIST_ITEM.GLOBLABEL "VCC" with m_SheetPath := ["S"] },
        { labelObject NETLIST_ITEM.GLOBLABEL "VCC" with m_SheetPath := ["T"] }])
      0 1 =
    IsLabelConnected
      (storeOf [{ labelObject NETLIST_ITEM.GLOBLABEL "VCC" with m_SheetPath := ["S"] },
        { labelObject NETLIST_ITEM.GLOBLABEL "VCC" with m_SheetPath := ["T"] }])
      1 0 :=
  ⟨((C16_global_labels_by_text
      (storeOf [{ labelObject NETLIST_ITEM.GLOBLABEL "VCC" with m_SheetPath := ["S"] },
        { labelObject NETLIST_ITEM.GLOBLABEL "VCC" with m_SheetPath := ["T"] }])
      0 1 (by decide) (by decide) (by decide)).1).2 (by decide),
   (C16_global_labels_by_text
      (storeOf [{ labelObject NETLIST_ITEM.GLOBLABEL "VCC" with m_SheetPath := ["S"] },
        { labelObject NETLIST_ITEM.GLOBLABEL "VCC" with m_SheetPath := ["T"] }])
      0 1 (by decide) (by decide) (by decide)).2.2⟩

/-- C17 on a sheet label asked about the hierarchical label it reaches (the reverse
order), on two global bus label members of equal text and on two plain labels of equal
text: not connected. -/
theorem C17_other_kinds_not_connected_witness :
    IsLabelConnected
      (storeOf [{ labelObject NETLIST_ITEM.SHEETLABEL "CLK" with m_SheetPathInclude := ["S"] },
        { labelObject NETLIST_ITEM.HIERLABEL "CLK" with m_SheetPath := ["S"] }])
      0 1 = false ∧
    IsLabelConnected
      (storeOf [labelObject NETLIST_ITEM.GLOBBUSLABELMEMBER "D1",
        labelObject NETLIST_ITEM.GLOBBUSLABELMEMBER "D1"]) 0 1 = false ∧
    IsLabelConnected
      (storeOf [labelObject NETLIST_ITEM.LABEL "RESET",
        labelObject NETLIST_ITEM.LABEL "RESET"]) 0 1 = false :=
  ⟨C17_other_kinds_not_connected
      (storeOf [{ labelObject NETLIST_ITEM.SHEETLABEL "CLK" with m_SheetPathInclude := ["S"] },
        { labelObject NETLIST_ITEM.HIERLABEL "CLK" with m_SheetPath := ["S"] }])
      0 1 (by decide) (by decide),
   C17_other_kinds_not_connected
      (storeOf [labelObject NETLIST_ITEM.GLOBBUSLABELMEMBER "D1",
        labelObject NETLIST_ITEM.GLOBBUSLABELMEMBER "D1"]) 0 1 (by decide) (by decide),
   C17_other_kinds_not_connected
      (storeOf [labelObject NETLIST_ITEM.LABEL "RESET",
        labelObject NETLIST_ITEM.LABEL "RESET"]) 0 1 (by decide) (by decide)⟩

/-! ## Net name candidates and net names -/

/-- C18: when the kind of the candidate is hierarchical label, label, pin label,
global label, global bus label member, sheet bus label member or pin,
`SetNetNameCandidate` makes it the candidate of the object, whatever candidate the
object held, and changes no other field of the object and no other object. -/
theorem C18_accepted_candidate_is_set (store : ObjectStore) (this aCandidate : Nat)
    (hK : (store aCandidate).m_Type = NETLIST_ITEM.HIERLABEL ∨
      (store aCandidate).m_Type = NETLIST_ITEM.LABEL ∨
      (store aCandidate).m_Type = NETLIST_ITEM.PINLABEL ∨
      (store aCandidate).m_Type = NETLIST_ITEM.GLOBLABEL ∨
      (store aCandidate).m_Type = NETLIST_ITEM.GLOBBUSLABELMEMBER ∨
      (store aCandidate).m_Type = NETLIST_ITEM.SHEETBUSLABELMEMBER ∨
      (store aCandidate).m_Type = NETLIST_ITEM.PIN) :
    (SetNetNameCandidate store this aCandidate this).m_netNameCandidate = some aCandidate ∧
    SetNetNameCandidate store this aCandidate this =
      { store this with m_netNameCandidate := some aCandidate } ∧
    ∀ p, p ≠ this → SetNetNameCandidate store this aCandidate p = store p := by
  unfold SetNetNameCandidate
  rcases hK with h | h | h | h | h | h | h <;> simp [h] <;> intro p hp <;> simp [hp]

/-- C19: when the kind of the candidate is segment, bus, junction, bus label member,
hierarchical bus label member, sheet label, no-connect or unspecified,
`SetNetNameCandidate` changes nothing: every object, the one it is called on
included, is as before and keeps the candidate it had. -/
theorem C19_rejected_candidate_is_ignored (store : ObjectStore) (this aCandidate : Nat)
    (hK : (store aCandidate).m_Type = NETLIST_ITEM.SEGMENT ∨
      (store aCandidate).m_Type = NETLIST_ITEM.BUS ∨
      (store aCandidate).m_Type = NETLIST_ITEM.JUNCTION ∨
      (store aCandidate).m_Type = NETLIST_ITEM.BUSLABELMEMBER ∨
      (store aCandidate).m_Type = NETLIST_ITEM.HIERBUSLABELMEMBER ∨
      (store aCandidate).m_Type = NETLIST_ITEM.SHEETLABEL ∨
      (store aCandidate).m_Type = NETLIST_ITEM.NOCONNECT ∨
      (store aCandidate).m_Type = NETLIST_ITEM.ITEM_UNSPECIFIED) :
    SetNetNameCandidate store this aCandidate = store := by
  unfold SetNetNameCandidate
  rcases hK with h | h | h | h | h | h | h | h <;> simp [h]

/-- C20: an object without candidate has the empty text as net name and as short net
name, whatever its kind, label and sheet path; the freshly constructed object is such
an object. -/
theorem C20_no_candidate_no_name (names : NameEnv) (store : ObjectStore) (this : Nat)
    (hN : (store this).m_netNameCandidate = none) :
    GetNetName names store this = "" ∧ GetShortNetName names store this = "" ∧
    NETLIST_OBJECT.new.m_netNameCandidate = none := by
  simp [GetNetName, GetShortNetName, hN, NETLIST_OBJECT.new]

/-- C18 on an object that holds the candidate 2 and is given the plain label at
handle 1: the candidate is now 1. -/
theorem C18_accepted_candidate_is_set_witness :
    (SetNetNameCandidate
      (storeOf [{ labelObject NETLIST_ITEM.SEGMENT "" with m_netNameCandidate := some 2 },
        labelObject NETLIST_ITEM.LABEL "RESET", labelObject NETLIST_ITEM.PIN ""])
      0 1 0).m_netNameCandidate = some 1 :=
  (C18_accepted_candidate_is_set
    (storeOf [{ labelObject NETLIST_ITEM.SEGMENT "" with m_netNameCandidate := some 2 },
      labelObject NETLIST_ITEM.LABEL "RESET", labelObject NETLIST_ITEM.PIN ""])
    0 1 (Or.inr (Or.inl (by decide)))).1

/-- C19 on an object that was given the plain label at handle 1 as candidate and is
then offered the segment at handle 2: the store is as before, the candidate is still
1. -/
theorem C19_rejected_candidate_is_ignored_witness :
    SetNetNameCandidate
      (SetNetNameCandidate
        (storeOf [labelObject NETLIST_ITEM.SEGMENT "", labelObject NETLIST_ITEM.LABEL "RESET",
          labelObject NETLIST_ITEM.SEGMENT ""]) 0 1) 0 2 =
      SetNetNameCandidate
        (storeOf [labelObject NETLIST_ITEM.SEGMENT "", labelObject NETLIST_ITEM.LABEL "RESET",
          labelObject NETLIST_ITEM.SEGMENT ""]) 0 1 ∧
    (SetNetNameCandidate
        (storeOf [labelObject NETLIST_ITEM.SEGMENT "", labelObject NETLIST_ITEM.LABEL "RESET",
          labelObject NETLIST_ITEM.SEGMENT ""]) 0 1 0).m_netNameCandidate = some 1 :=
  ⟨C19_rejected_candidate_is_ignored
    (SetNetNameCandidate
      (storeOf [labelObject NETLIST_ITEM.SEGMENT "", labelObject NETLIST_ITEM.LABEL "RESET",
        labelObject NETLIST_ITEM.SEGMENT ""]) 0 1) 0 2 (Or.inl (by decide)),
   by decide⟩

/-- C20 on a freshly constructed object: both names are empty. -/
theorem C20_no_candidate_no_name_witness :
    GetNetName sampleNames (storeOf [NETLIST_OBJECT.new]) 0 = "" ∧
    GetShortNetName sampleNames (storeOf [NETLIST_OBJECT.new]) 0 = "" :=
  ⟨(C20_no_candidate_no_name sampleNames (storeOf [NETLIST_OBJECT.new]) 0 (by decide)).1,
   (C20_no_candidate_no_name sampleNames (storeOf [NETLIST_OBJECT.new]) 0 (by decide)).2.1⟩

/-! ## Net names -/

/-- C21: when the candidate of an object is there and is no pin, the net name is the
label of the candidate for a pin label, a global label or a global bus label member,
and else the human-readable sheet path of the candidate followed by the label of the
candidate; only fields of the candidate enter the name. -/
theorem C21_net_name_of_label_candidate (names : NameEnv) (store : ObjectStore)
    (this candidate : Nat)
    (hC : (store this).m_netNameCandidate = some candidate)
    (hP : (store candidate).m_Type ≠ NETLIST_ITEM.PIN) :
    (((store candidate).m_Type = NETLIST_ITEM.PINLABEL ∨
        (store candidate).m_Type = NETLIST_ITEM.GLOBLABEL ∨
        (store candidate).m_Type = NETLIST_ITEM.GLOBBUSLABELMEMBER) →
      GetNetName names store this = (store candidate).m_Label) ∧
    (¬ ((store candidate).m_Type = NETLIST_ITEM.PINLABEL ∨
        (store candidate).m_Type = NETLIST_ITEM.GLOBLABEL ∨
        (store candidate).m_Type = NETLIST_ITEM.GLOBBUSLABELMEMBER) →
      GetNetName names store this =
        names.PathHumanReadable (store candidate).m_SheetPath ++ (store candidate).m_Label) ∧
    (this ≠ candidate → ∀ (text : String) (path : SCH_SHEET_PATH),
      GetNetName names
        (fun p => if p = this then { store this with m_Label := text, m_SheetPath := path }
          else store p) this = GetNetName names store this) := by
  refine ⟨?_, ?_, ?_⟩
  · intro hG
    have : (store candidate).IsLabelGlobal = true := by
      simp only [NETLIST_OBJECT.IsLabelGlobal, Bool.or_eq_true, decide_eq_true_eq]
      tauto
    simp [GetNetName, hC, hP, this, empty_append_string]
  · intro hG
    have : (store candidate).IsLabelGlobal = false := by
      rw [← Bool.not_eq_true]
      simp only [NETLIST_OBJECT.IsLabelGlobal, Bool.or_eq_true, decide_eq_true_eq]
      tauto
    simp [GetNetName, hC, hP, this]
  · intro hne text path
    have hne2 : ¬ candidate = this := fun h => hne h.symm
    simp [GetNetName, GetShortNetName, hC, hne2]

/-- C21 on a segment whose candidate is the plain label `RESET` of the root sheet:
the net name is `/RESET`. -/
theorem C21_net_name_of_label_candidate_witness :
    GetNetName sampleNames
      (storeOf [{ labelObject NETLIST_ITEM.SEGMENT "" with m_netNameCandidate := some 1 },
        labelObject NETLIST_ITEM.LABEL "RESET"]) 0 = "/RESET" :=
  ((C21_net_name_of_label_candidate sampleNames
    (storeOf [{ labelObject NETLIST_ITEM.SEGMENT "" with m_netNameCandidate := some 1 },
      labelObject NETLIST_ITEM.LABEL "RESET"]) 0 1 (by decide) (by decide)).2.1 (by decide)).trans
    (by decide)

/-- C22: when the candidate of an object is a pin, with the symbol that owns it, the
short net name is `Net-(` followed by the reference of that symbol within the sheet
path of the candidate, `-Pad`, the pin number of the candidate and `)`, and the net
name is exactly the same text, without the sheet path before it. -/
theorem C22_net_name_of_pin_candidate (names : NameEnv) (store : ObjectStore)
    (this candidate link : Nat)
    (hC : (store this).m_netNameCandidate = some candidate)
    (hP : (store candidate).m_Type = NETLIST_ITEM.PIN)
    (hL : names.GetComponentParent (store candidate) = some link) :
    GetShortNetName names store this =
      "Net-(" ++ names.GetRef link (store candidate).m_SheetPath ++ "-Pad"
        ++ (store candidate).m_PinNum ++ ")" ∧
    GetNetName names store this =
      "Net-(" ++ names.GetRef link (store candidate).m_SheetPath ++ "-Pad"
        ++ (store candidate).m_PinNum ++ ")" := by
  constructor <;> simp [GetNetName, GetShortNetName, hC, hP, hL]

/-- C22 on pin 3 of the symbol with reference `U1`, on the sheet `S`: both names are
`Net-(U1-Pad3)`. -/
theorem C22_net_name_of_pin_candidate_witness :
    GetShortNetName sampleNames
      (storeOf [{ labelObject NETLIST_ITEM.SEGMENT "" with m_netNameCandidate := some 1 },
        { labelObject NETLIST_ITEM.PIN "" with
            m_PinNum := "3", m_Link := some 1, m_SheetPath := ["S"] }]) 0
      = "Net-(U1-Pad3)" ∧
    GetNetName sampleNames
      (storeOf [{ labelObject NETLIST_ITEM.SEGMENT "" with m_netNameCandidate := some 1 },
        { labelObject NETLIST_ITEM.PIN "" with
            m_PinNum := "3", m_Link := some 1, m_SheetPath := ["S"] }]) 0
      = "Net-(U1-Pad3)" :=
  ⟨(C22_net_name_of_pin_candidate sampleNames
      (storeOf [{ labelObject NETLIST_ITEM.SEGMENT "" with m_netNameCandidate := some 1 },
        { labelObject NETLIST_ITEM.PIN "" with
            m_PinNum := "3", m_Link := some 1, m_SheetPath := ["S"] }]) 0 1 1
      (by decide) (by decide) (by decide)).1.trans (by decide),
   (C22_net_name_of_pin_candidate sampleNames
      (storeOf [{ labelObject NETLIST_ITEM.SEGMENT "" with m_netNameCandidate := some 1 },
        { labelObject NETLIST_ITEM.PIN "" with
            m_PinNum := "3", m_Link := some 1, m_SheetPath := ["S"] }]) 0 1 1
      (by decide) (by decide) (by decide)).2.trans (by decide)⟩

/-- C23: when the candidate of an object is there and is no pin, the short net name
is the label of the candidate as it stands, whatever the sheet path of the candidate;
so two objects whose candidates carry the same label have the same short net name,
also on different sheet paths. -/
theorem C23_short_net_name_of_label_candidate (names : NameEnv) (store : ObjectStore)
    (this candidate : Nat)
    (hC : (store this).m_netNameCandidate = some candidate)
    (hP : (store candidate).m_Type ≠ NETLIST_ITEM.PIN) :
    GetShortNetName names store this = (store candidate).m_Label ∧
    (∀ (other otherCandidate : Nat),
      (store other).m_netNameCandidate = some otherCandidate →
      (store otherCandidate).m_Type ≠ NETLIST_ITEM.PIN →
      (store otherCandidate).m_Label = (store candidate).m_Label →
      GetShortNetName names store other = GetShortNetName names store this) := by
  have key : ∀ (t c : Nat), (store t).m_netNameCandidate = some c →
      (store c).m_Type ≠ NETLIST_ITEM.PIN →
      GetShortNetName names store t = (store c).m_Label := by
    intro t c h1 h2
    simp [GetShortNetName, h1, h2]
  refine ⟨key this candidate hC hP, ?_⟩
  intro other oc h1 h2 h3
  rw [key other oc h1 h2, key this candidate hC hP, h3]

/-- C23 on two segments whose candidates are the labels `RESET` of the sheets `S` and
`T`: the short net names are both `RESET`. -/
theorem C23_short_net_name_of_label_candidate_witness :
    GetShortNetName sampleNames
      (storeOf [{ labelObject NETLIST_ITEM.SEGMENT "" with m_netNameCandidate := some 2 },
        { labelObject NETLIST_ITEM.SEGMENT "" with m_netNameCandidate := some 3 },
        { labelObject NETLIST_ITEM.LABEL "RESET" with m_SheetPath := ["S"] },
        { labelObject NETLIST_ITEM.LABEL "RESET" with m_SheetPath := ["T"] }]) 1 =
    GetShortNetName sampleNames
      (storeOf [{ labelObject NETLIST_ITEM.SEGMENT "" with m_netNameCandidate := some 2 },
        { labelObject NETLIST_ITEM.SEGMENT "" with m_netNameCandidate := some 3 },
        { labelObject NETLIST_ITEM.LABEL "RESET" with m_SheetPath := ["S"] },
        { labelObject NETLIST_ITEM.LABEL "RESET" with m_SheetPath := ["T"] }]) 0 :=
  (C23_short_net_name_of_label_candidate sampleNames
    (storeOf [{ labelObject NETLIST_ITEM.SEGMENT "" with m_netNameCandidate := some 2 },
      { labelObject NETLIST_ITEM.SEGMENT "" with m_netNameCandidate := some 3 },
      { labelObject NETLIST_ITEM.LABEL "RESET" with m_SheetPath := ["S"] },
      { labelObject NETLIST_ITEM.LABEL "RESET" with m_SheetPath := ["T"] }]) 0 2
    (by decide) (by decide)).2 1 3 (by decide) (by decide) (by decide)

/-- The human-readable text of a sheet path, as modelled, is never empty: it begins
with the slash of the root sheet. -/
theorem pathHumanReadable_ne_empty (path : SCH_SHEET_PATH) : pathHumanReadable path ≠ "" := by
  have key : ∀ (p : SCH_SHEET_PATH) (acc : String), acc.data ≠ [] →
      (p.foldl (fun text sheet => text ++ sheet ++ "/") acc).data ≠ [] := by
    intro p
    induction p with
    | nil => intro acc h; exact h
    | cons s p ih =>
        intro acc h
        simp only [List.foldl_cons]
        apply ih
        simp [String.data_append, h]
  intro h
  have h1 := key path "/" (by decide)
  unfold pathHumanReadable at h
  rw [h] at h1
  exact h1 rfl

theorem string_append_eq_right (a b : String) : a ++ b = b ↔ a = "" := by
  constructor
  · intro h
    have h2 := congrArg String.data h
    rw [String.data_append] at h2
    have h3 : a.data = [] := List.append_left_eq_self.1 h2
    cases a
    simp only at h3
    subst h3
    rfl
  · rintro rfl
    exact empty_append_string b

/-- C28: the short net name is the end of the net name.  The two are equal when the
candidate is absent, is a pin or is a pin label, global label or global bus label
member; otherwise the net name is the human-readable sheet path of the candidate
followed by the short net name, and the two differ, the text of a sheet path not being
empty. -/
theorem C28_short_net_name_ends_net_name (names : NameEnv) (store : ObjectStore)
    (this : Nat) :
    (∃ front, GetNetName names store this = front ++ GetShortNetName names store this) ∧
    ((store this).m_netNameCandidate = none →
      GetNetName names store this = GetShortNetName names store this) ∧
    (∀ candidate, (store this).m_netNameCandidate = some candidate →
      ((store candidate).m_Type = NETLIST_ITEM.PIN ∨
        (store candidate).m_Type = NETLIST_ITEM.PINLABEL ∨
        (store candidate).m_Type = NETLIST_ITEM.GLOBLABEL ∨
        (store candidate).m_Type = NETLIST_ITEM.GLOBBUSLABELMEMBER) →
      GetNetName names store this = GetShortNetName names store this) ∧
    (∀ candidate, (store this).m_netNameCandidate = some candidate →
      ¬ ((store candidate).m_Type = NETLIST_ITEM.PIN ∨
        (store candidate).m_Type = NETLIST_ITEM.PINLABEL ∨
        (store candidate).m_Type = NETLIST_ITEM.GLOBLABEL ∨
        (store candidate).m_Type = NETLIST_ITEM.GLOBBUSLABELMEMBER) →
      GetNetName names store this =
        names.PathHumanReadable (store candidate).m_SheetPath ++
          GetShortNetName names store this ∧
      (names.PathHumanReadable (store candidate).m_SheetPath ≠ "" →
        GetNetName names store this ≠ GetShortNetName names store this)) := by
  have hEq : ∀ candidate, (store this).m_netNameCandidate = some candidate →
      ((store candidate).m_Type = NETLIST_ITEM.PIN ∨
        (store candidate).m_Type = NETLIST_ITEM.PINLABEL ∨
        (store candidate).m_Type = NETLIST_ITEM.GLOBLABEL ∨
        (store candidate).m_Type = NETLIST_ITEM.GLOBBUSLABELMEMBER) →
      GetNetName names store this = GetShortNetName names store this := by
    intro c hC hK
    by_cases hP : (store c).m_Type = NETLIST_ITEM.PIN
    · simp [GetNetName, hC, hP]
    · have hG : (store c).IsLabelGlobal = true := by
        simp only [NETLIST_OBJECT.IsLabelGlobal, Bool.or_eq_true, decide_eq_true_eq]
        tauto
      simp [GetNetName, GetShortNetName, hC, hP, hG, empty_append_string]
  have hNe : ∀ candidate, (store this).m_netNameCandidate = some candidate →
      ¬ ((store candidate).m_Type = NETLIST_ITEM.PIN ∨
        (store candidate).m_Type = NETLIST_ITEM.PINLABEL ∨
        (store candidate).m_Type = NETLIST_ITEM.GLOBLABEL ∨
        (store candidate).m_Type = NETLIST_ITEM.GLOBBUSLABELMEMBER) →
      GetNetName names store this =
        names.PathHumanReadable (store candidate).m_SheetPath ++
          GetShortNetName names store this := by
    intro c hC hK
    have hP : (store c).m_Type ≠ NETLIST_ITEM.PIN := fun h => hK (Or.inl h)
    have hG : (store c).IsLabelGlobal = false := by
      rw [← Bool.not_eq_true]
      simp only [NETLIST_OBJECT.IsLabelGlobal, Bool.or_eq_true, decide_eq_true_eq]
      tauto
    simp [GetNetName, GetShortNetName, hC, hP, hG]
  have hNone : (store this).m_netNameCandidate = none →
      GetNetName names store this = GetShortNetName names store this := by
    intro hC
    simp [GetNetName, GetShortNetName, hC]
  refine ⟨?_, hNone, hEq, ?_⟩
  · cases hC : (store this).m_netNameCandidate with
    | none => exact ⟨"", by rw [empty_append_string]; exact hNone hC⟩
    | some c =>
        by_cases hK : ((store c).m_Type = NETLIST_ITEM.PIN ∨
          (store c).m_Type = NETLIST_ITEM.PINLABEL ∨
          (store c).m_Type = NETLIST_ITEM.GLOBLABEL ∨
          (store c).m_Type = NETLIST_ITEM.GLOBBUSLABELMEMBER)
        · exact ⟨"", by rw [empty_append_string]; exact hEq c hC hK⟩
        · exact ⟨_, hNe c hC hK⟩
  · intro c hC hK
    refine ⟨hNe c hC hK, ?_⟩
    intro hPath hSame
    rw [hNe c hC hK] at hSame
    exact hPath ((string_append_eq_right _ _).1 hSame)

/-! ## Net classes -/

/-- C24: `NETCLASSES::Add` returns false exactly when the name of the net class is
not `Default` and the map holds a net class of that name, and then the net classes are
as before; otherwise it returns true and `Find` of the name gives the net class just
added; a net class named `Default` becomes the default net class and the map is as
before. -/
theorem C24_add_net_class (classes : NETCLASSES) (aNetClass : NETCLASS) :
    ((classes.Add aNetClass).1 = false ↔
      (aNetClass.m_Name ≠ NETCLASS.Default ∧
        (classes.m_NetClasses aNetClass.m_Name).isSome = true)) ∧
    ((classes.Add aNetClass).1 = false → (classes.Add aNetClass).2 = classes) ∧
    ((classes.Add aNetClass).1 = true →
      (classes.Add aNetClass).2.Find aNetClass.m_Name = some aNetClass) ∧
    (aNetClass.m_Name = NETCLASS.Default →
      (classes.Add aNetClass).2 = { classes with m_default := aNetClass }) := by
  unfold NETCLASSES.Add
  by_cases hD : aNetClass.m_Name = NETCLASS.Default
  · simp [hD, NETCLASSES.Find]
  · cases hF : classes.m_NetClasses aNetClass.m_Name with
    | none => simp [hD, hF, NETCLASSES.Find]
    | some c => simp [hD, hF, NETCLASSES.Find]

/-! ## Candidates across calls -/

/-- A turn of the loop leaves the candidate of the object itself as it is. -/
theorem busMemberStep_candidate (env : BusEnv) (gp : String) (st st1 : LoopState)
    (m : String) (rest : List String) (hs : busMemberStep env gp st m rest = some st1) :
    st1.self.m_netNameCandidate = st.self.m_netNameCandidate := by
  obtain ⟨_, _, hSelf, _⟩ := busMemberStep_shape env gp st st1 m rest hs
  exact copy_candidate _ _ hSelf

/-- The loop leaves the candidate of the object itself as it is. -/
theorem busLoop_candidate (env : BusEnv) (gp : String) (fuel : Nat) :
    ∀ st : LoopState,
      (busLoop env gp fuel st).self.m_netNameCandidate = st.self.m_netNameCandidate := by
  induction fuel with
  | zero =>
      intro st
      obtain ⟨s, its, bc, off, ss⟩ := st
      cases bc <;> rfl
  | succ k ih =>
      intro st
      cases hc : st.bus_contents with
      | nil => rw [busLoop_nil env gp _ st hc]
      | cons m rest =>
          cases hs : busMemberStep env gp st m rest with
          | none => rw [busLoop_endless_turn env gp k st m rest hc hs]
          | some st1 =>
              rw [busLoop_cons env gp k st st1 m rest hc hs, ih]
              exact busMemberStep_candidate env gp st st1 m rest hs

/-- A call leaves the candidate of the object itself as it is. -/
theorem convert_candidate (env : BusEnv) (fuel : Nat) (self : NETLIST_OBJECT)
    (items : List NETLIST_OBJECT) :
    (ConvertBusToNetListItems env fuel self items).self.m_netNameCandidate =
      self.m_netNameCandidate := by
  unfold ConvertBusToNetListItems
  split
  · rfl
  · split
    · rfl
    · dsimp only
      split
      · rw [busLoop_candidate]
      · split
        · split <;> rfl
        · rfl

/-- A call leaves the kind of the object itself as it is or gives it its "-member"
kind. -/
theorem convert_self_kind (env : BusEnv) (fuel : Nat) (self : NETLIST_OBJECT)
    (items : List NETLIST_OBJECT) :
    (ConvertBusToNetListItems env fuel self items).self.m_Type = self.m_Type ∨
    busMemberType self.m_Type =
      some (ConvertBusToNetListItems env fuel self items).self.m_Type := by
  cases hB : env.IsBusLabel self.m_Label with
  | false => rw [convert_invalid_label env fuel self items hB]; exact Or.inl rfl
  | true =>
      cases hT : busMemberType self.m_Type with
      | none => rw [convert_invalid_expansion env fuel self items hB hT]; exact Or.inl rfl
      | some memberType =>
          exact Or.inr (by rw [(convert_type env fuel self items memberType hB hT).1])

/-- The records a call appends to an empty list have a "-member" kind and the
candidate of the object itself. -/
theorem convert_appended (env : BusEnv) (fuel : Nat) (self o : NETLIST_OBJECT)
    (hO : o ∈ (ConvertBusToNetListItems env fuel self []).aNetListItems) :
    (∃ t, busMemberType t = some o.m_Type) ∧
    o.m_netNameCandidate = self.m_netNameCandidate := by
  obtain ⟨app, hI, hA⟩ := convert_frame env fuel self []
  obtain ⟨app2, hI2, hA2⟩ := convert_copies env fuel self []
  rw [List.nil_append] at hI hI2
  constructor
  · cases hB : env.IsBusLabel self.m_Label with
    | false =>
        rw [convert_invalid_label env fuel self [] hB] at hO
        simp at hO
    | true =>
        cases hT : busMemberType self.m_Type with
        | none =>
            rw [convert_invalid_expansion env fuel self [] hB hT] at hO
            simp at hO
        | some memberType =>
            refine ⟨self.m_Type, ?_⟩
            rw [hA o (hI ▸ hO), (convert_type env fuel self [] memberType hB hT).1]
            exact hT
  · have h := congrArg NETLIST_OBJECT.m_netNameCandidate (hA2 o (hI2 ▸ hO))
    simp only at h
    rw [h, convert_candidate]

theorem reachedCandidateKind_of_member (t k : NETLIST_ITEM) (h : busMemberType t = some k) :
    reachedCandidateKind k = true := by
  cases t <;> simp [busMemberType] at h <;> subst h <;> decide

/-- `SetNetNameCandidate` changes the kind of no object. -/
theorem SetNetNameCandidate_kind (store : ObjectStore) (this aCandidate q : Nat) :
    (SetNetNameCandidate store this aCandidate q).m_Type = (store q).m_Type := by
  by_cases hq : q = this <;> cases h : (store aCandidate).m_Type <;>
    simp [SetNetNameCandidate, h, hq]

/-- After `SetNetNameCandidate` the candidate of an object is the one it had, or it is
the one of the call and of an accepted kind. -/
theorem SetNetNameCandidate_candidate (store : ObjectStore) (this aCandidate q : Nat) :
    (SetNetNameCandidate store this aCandidate q).m_netNameCandidate =
        (store q).m_netNameCandidate ∨
    ((SetNetNameCandidate store this aCandidate q).m_netNameCandidate = some aCandidate ∧
      acceptedCandidateKind (store aCandidate).m_Type = true) := by
  by_cases hq : q = this <;> cases h : (store aCandidate).m_Type <;>
    simp [SetNetNameCandidate, h, hq, acceptedCandidateKind]

/-- A call on the objects of a build keeps this: the candidate of every object is of
a reached kind. -/
theorem Build.call_keeps_candidate_kinds (env : BusEnv) (b : Build) (c : BuildCall)
    (hInv : ∀ p cand, (b.store p).m_netNameCandidate = some cand →
      reachedCandidateKind (b.store cand).m_Type = true) :
    ∀ p cand, ((b.call env c).store p).m_netNameCandidate = some cand →
      reachedCandidateKind ((b.call env c).store cand).m_Type = true := by
  cases c with
  | SetNetNameCandidate this aCandidate =>
      intro p cand h
      simp only [Build.call] at h ⊢
      rw [SetNetNameCandidate_kind]
      rcases SetNetNameCandidate_candidate b.store this aCandidate p with h1 | ⟨h1, h2⟩
      · rw [h1] at h
        exact hInv p cand h
      · rw [h1] at h
        injection h with h
        subst h
        simp [reachedCandidateKind, h2]
  | ConvertBusToNetListItems this fuel =>
      -- the kind of an object after the call: as before, or a "-member" kind
      have hKind : ∀ q,
          ((b.call env (BuildCall.ConvertBusToNetListItems this fuel)).store q).m_Type =
              (b.store q).m_Type ∨
          reachedCandidateKind
            ((b.call env (BuildCall.ConvertBusToNetListItems this fuel)).store q).m_Type
              = true := by
        intro q
        simp only [Build.call, Build.ConvertBusToNetListItems]
        by_cases hq : q = this
        · simp only [hq, if_true]
          rcases convert_self_kind env fuel (b.store this) [] with h | h
          · exact Or.inl h
          · exact Or.inr (reachedCandidateKind_of_member _ _ h)
        · simp only [hq, if_false]
          split
          · rename_i hr
            right
            have hlt : q - b.count <
                (Netlist.ConvertBusToNetListItems env fuel (b.store this)
                  []).aNetListItems.length := by
              omega
            have hmem : (Netlist.ConvertBusToNetListItems env fuel (b.store this)
                []).aNetListItems.getD (q - b.count) NETLIST_OBJECT.new ∈
                (Netlist.ConvertBusToNetListItems env fuel (b.store this) []).aNetListItems := by
              rw [List.getD_eq_getElem _ _ hlt]
              exact List.getElem_mem hlt
            obtain ⟨⟨t, ht⟩, _⟩ := convert_appended env fuel (b.store this) _ hmem
            exact reachedCandidateKind_of_member _ _ ht
          · exact Or.inl rfl
      -- the candidate of an object after the call was the candidate of an object before
      have hCand : ∀ q cand,
          ((b.call env (BuildCall.ConvertBusToNetListItems this fuel)).store q).m_netNameCandidate
            = some cand →
          ∃ q0, (b.store q0).m_netNameCandidate = some cand := by
        intro q cand
        simp only [Build.call, Build.ConvertBusToNetListItems]
        by_cases hq : q = this
        · simp only [hq, if_true]
          rw [convert_candidate]
          exact fun h => ⟨this, h⟩
        · simp only [hq, if_false]
          split
          · rename_i hr
            have hlt : q - b.count <
                (Netlist.ConvertBusToNetListItems env fuel (b.store this)
                  []).aNetListItems.length := by
              omega
            have hmem : (Netlist.ConvertBusToNetListItems env fuel (b.store this)
                []).aNetListItems.getD (q - b.count) NETLIST_OBJECT.new ∈
                (Netlist.ConvertBusToNetListItems env fuel (b.store this) []).aNetListItems := by
              rw [List.getD_eq_getElem _ _ hlt]
              exact List.getElem_mem hlt
            obtain ⟨_, hc⟩ := convert_appended env fuel (b.store this) _ hmem
            rw [hc]
            exact fun h => ⟨this, h⟩
          · exact fun h => ⟨q, h⟩
      intro p cand h
      obtain ⟨q0, hq0⟩ := hCand p cand h
      rcases hKind cand with hk | hk
      · rw [hk]
        exact hInv q0 cand hq0
      · exact hk

/-- C25, as stated, fails: the plain label `D[1..2]` is accepted as the candidate of an
object without candidate; the call of `ConvertBusToNetListItems` on the label then
makes it a bus label member, a kind that is not in the accepted set, and it still is
the candidate. -/
theorem C25_candidate_reclassified_after_acceptance :
    (∀ p, ((⟨storeOf [labelObject NETLIST_ITEM.SEGMENT "",
        labelObject NETLIST_ITEM.LABEL "D[1..2]"], 2⟩ : Build).store p).m_netNameCandidate
      = none) ∧
    (((⟨storeOf [labelObject NETLIST_ITEM.SEGMENT "",
        labelObject NETLIST_ITEM.LABEL "D[1..2]"], 2⟩ : Build).calls (specEnv [] 0 0)
      [BuildCall.SetNetNameCandidate 0 1,
        BuildCall.ConvertBusToNetListItems 1 0]).store 0).m_netNameCandidate = some 1 ∧
    (((⟨storeOf [labelObject NETLIST_ITEM.SEGMENT "",
        labelObject NETLIST_ITEM.LABEL "D[1..2]"], 2⟩ : Build).calls (specEnv [] 0 0)
      [BuildCall.SetNetNameCandidate 0 1,
        BuildCall.ConvertBusToNetListItems 1 0]).store 1).m_Type
      = NETLIST_ITEM.BUSLABELMEMBER ∧
    acceptedCandidateKind NETLIST_ITEM.BUSLABELMEMBER = false := by
  refine ⟨?_, by decide, by decide, by decide⟩
  intro p
  rcases p with _ | _ | p <;> rfl

/-- C25, amended: from objects without candidate, after any calls of
`SetNetNameCandidate` and `ConvertBusToNetListItems` on any objects (and at any stage
of such a call), the candidate of every object is absent or is an object whose kind is
in the accepted set or is bus label member or hierarchical bus label member, the kinds
that the expansion gives a label or a hierarchical label accepted before. -/
theorem C25_candidate_kinds_after_calls (env : BusEnv) (b : Build) (cs : List BuildCall)
    (h0 : ∀ p, (b.store p).m_netNameCandidate = none) (p cand : Nat)
    (hC : ((b.calls env cs).store p).m_netNameCandidate = some cand) :
    acceptedCandidateKind ((b.calls env cs).store cand).m_Type = true ∨
    ((b.calls env cs).store cand).m_Type = NETLIST_ITEM.BUSLABELMEMBER ∨
    ((b.calls env cs).store cand).m_Type = NETLIST_ITEM.HIERBUSLABELMEMBER := by
  have key : ∀ (cs : List BuildCall) (b : Build),
      (∀ p cand, (b.store p).m_netNameCandidate = some cand →
        reachedCandidateKind (b.store cand).m_Type = true) →
      ∀ p cand, ((b.calls env cs).store p).m_netNameCandidate = some cand →
        reachedCandidateKind ((b.calls env cs).store cand).m_Type = true := by
    intro cs
    induction cs with
    | nil => intro b h; exact h
    | cons c cs ih =>
        intro b h
        exact ih (b.call env c) (Build.call_keeps_candidate_kinds env b c h)
  have h := key cs b (fun p cand hp => by rw [h0 p] at hp; cases hp) p cand hC
  simpa [reachedCandidateKind, or_assoc] using h

/-- C25, amended, on the build of the counterexample: the candidate of the first
object is a bus label member. -/
theorem C25_candidate_kinds_after_calls_witness :
    acceptedCandidateKind
      (((⟨storeOf [labelObject NETLIST_ITEM.SEGMENT "",
        labelObject NETLIST_ITEM.LABEL "D[1..2]"], 2⟩ : Build).calls (specEnv [] 0 0)
      [BuildCall.SetNetNameCandidate 0 1,
        BuildCall.ConvertBusToNetListItems 1 0]).store 1).m_Type = true ∨
    (((⟨storeOf [labelObject NETLIST_ITEM.SEGMENT "",
        labelObject NETLIST_ITEM.LABEL "D[1..2]"], 2⟩ : Build).calls (specEnv [] 0 0)
      [BuildCall.SetNetNameCandidate 0 1,
        BuildCall.ConvertBusToNetListItems 1 0]).store 1).m_Type
      = NETLIST_ITEM.BUSLABELMEMBER ∨
    (((⟨storeOf [labelObject NETLIST_ITEM.SEGMENT "",
        labelObject NETLIST_ITEM.LABEL "D[1..2]"], 2⟩ : Build).calls (specEnv [] 0 0)
      [BuildCall.SetNetNameCandidate 0 1,
        BuildCall.ConvertBusToNetListItems 1 0]).store 1).m_Type
      = NETLIST_ITEM.HIERBUSLABELMEMBER :=
  C25_candidate_kinds_after_calls (specEnv [] 0 0)
    ⟨storeOf [labelObject NETLIST_ITEM.SEGMENT "", labelObject NETLIST_ITEM.LABEL "D[1..2]"], 2⟩
    [BuildCall.SetNetNameCandidate 0 1, BuildCall.ConvertBusToNetListItems 1 0]
    (by intro p; rcases p with _ | _ | p <;> rfl) 0 1 (by decide)

/-! ## Aliases that list themselves, and directories without cycle -/

/-- What a turn of the loop leaves to visit: the members after the one visited,
followed, when the member was taken as an alias, by the members of that alias. -/
theorem busMemberStep_contents (env : BusEnv) (gp : String) (st st1 : LoopState)
    (m : String) (rest : List String) (hs : busMemberStep env gp st m rest = some st1) :
    ∃ t, st1.bus_contents = rest ++ t ∧
      (t = [] ∨ (env.ParseBusVector m = none ∧ env.GetBusAlias m = some t)) := by
  obtain ⟨_, t, _, _, _, _, _, h1, h2⟩ := busMemberStep_shape env gp st st1 m rest hs
  exact ⟨t, h1, h2⟩

/-- The name of an alias that lists itself, and is no vector, stays among the members
to visit. -/
theorem busMemberStep_keeps_self_alias (env : BusEnv) (gp : String) (st st1 : LoopState)
    (m : String) (rest : List String) (al : String) (alias_members : List String)
    (hV : env.ParseBusVector al = none)
    (hAl : env.GetBusAlias al = some alias_members) (hSelf : al ∈ alias_members)
    (hIn : al ∈ m :: rest) (hs : busMemberStep env gp st m rest = some st1) :
    al ∈ st1.bus_contents := by
  rcases List.mem_cons.1 hIn with h | h
  · subst h
    rw [busMemberStep_alias env gp st al rest alias_members hV hAl] at hs
    simp only [Option.some.injEq] at hs
    subst hs
    exact List.mem_append.2 (Or.inr hSelf)
  · obtain ⟨t, ht, _⟩ := busMemberStep_contents env gp st st1 m rest hs
    rw [ht]
    exact List.mem_append.2 (Or.inl h)

/-- With the name of such an alias among the members to visit, some member is left to
visit after any number of turns. -/
theorem busTurns_keeps_self_alias (env : BusEnv) (gp : String) (al : String)
    (alias_members : List String) (hV : env.ParseBusVector al = none)
    (hAl : env.GetBusAlias al = some alias_members) (hSelf : al ∈ alias_members)
    (n : Nat) :
    ∀ st : LoopState, al ∈ st.bus_contents → al ∈ (busTurns env gp n st).bus_contents := by
  induction n with
  | zero => intro st h; exact h
  | succ k ih =>
      intro st h
      cases hc : st.bus_contents with
      | nil => rw [hc] at h; simp at h
      | cons m rest =>
          cases hs : busMemberStep env gp st m rest with
          | none =>
              simp only [busTurns, hc, hs]
              rw [hc] at h
              exact h
          | some st1 =>
              simp only [busTurns, hc, hs]
              exact ih st1 (busMemberStep_keeps_self_alias env gp st st1 m rest al alias_members
                hV hAl hSelf (hc ▸ h) hs)

/-- The loop with a bound of `n` turns is unfinished exactly when a member is left to
visit after `n` turns; it leaves the object and the list of that moment. -/
theorem busLoop_eq_busTurns (env : BusEnv) (gp : String) (n : Nat) :
    ∀ st : LoopState,
      busLoop env gp n st =
        { status := if (busTurns env gp n st).bus_contents = [] then BusStatus.done
            else BusStatus.unfinished
          self := (busTurns env gp n st).self
          aNetListItems := (busTurns env gp n st).aNetListItems } := by
  induction n with
  | zero =>
      intro st
      obtain ⟨s, its, bc, off, ss⟩ := st
      cases bc <;> simp [busLoop, busTurns]
  | succ k ih =>
      intro st
      cases hc : st.bus_contents with
      | nil => simp [busLoop, busTurns, hc]
      | cons m rest =>
          cases hs : busMemberStep env gp st m rest with
          | none => simp [busLoop, busTurns, hc, hs]
          | some st1 =>
              simp only [busLoop, busTurns, hc, hs]
              exact ih st1

/-- C26, as stated, fails: the alias `A[0..1]` lists its own name, and the group
`{A[0..1]}` holds that name as a member; the loop asks the vector recogniser first,
which accepts the name, so the member is expanded as a vector and not as the alias:
after one turn no member is left to visit and the call has ended, with the one record
`A0`. -/
theorem C26_alias_named_as_a_vector_ends :
    (specEnv [("A[0..1]", ["A[0..1]"])] 0 0).GetBusAlias "A[0..1]" = some ["A[0..1]"] ∧
    (specEnv [("A[0..1]", ["A[0..1]"])] 0 0).ParseBusGroup "{A[0..1]}" =
      some ("", ["A[0..1]"]) ∧
    (busTurns (specEnv [("A[0..1]", ["A[0..1]"])] 0 0) "" 1
      { self := { labelObject NETLIST_ITEM.LABEL "{A[0..1]}" with
          m_Type := NETLIST_ITEM.BUSLABELMEMBER },
        aNetListItems := [], bus_contents := ["A[0..1]"], member_offset := 0,
        self_set := false }).bus_contents = [] ∧
    (ConvertBusToNetListItems (specEnv [("A[0..1]", ["A[0..1]"])] 0 0) 1
      (labelObject NETLIST_ITEM.LABEL "{A[0..1]}") []).status = BusStatus.done ∧
    (ConvertBusToNetListItems (specEnv [("A[0..1]", ["A[0..1]"])] 0 0) 1
      (labelObject NETLIST_ITEM.LABEL "{A[0..1]}") []).records.map labelAndMember =
      [("A0", 0)] := by
  decide

/-- C26, amended: when an alias whose name is no vector lists its own name among its
members, and the label of a label object is a group, not itself the name of an alias,
that holds the name of that alias as a member, the call on that object does not end:
after any number `n` of turns of the loop over the members some member is left to
visit, and the call is unfinished at every bound. -/
theorem C26_self_referential_alias_never_ends (env : BusEnv) (self : NETLIST_OBJECT)
    (items : List NETLIST_OBJECT) (memberType : NETLIST_ITEM) (group_name al : String)
    (members alias_members : List String)
    (hT : busMemberType self.m_Type = some memberType)
    (hA : env.GetBusAlias self.m_Label = none)
    (hG : env.ParseBusGroup self.m_Label = some (group_name, members))
    (hIn : al ∈ members)
    (hV : env.ParseBusVector al = none)
    (hAl : env.GetBusAlias al = some alias_members)
    (hSelf : al ∈ alias_members) (n : Nat) :
    (busTurns env (if group_name ≠ "" then group_name ++ "." else "") n
      { self := { self with m_Type := memberType }, aNetListItems := items,
        bus_contents := members, member_offset := 0, self_set := false }).bus_contents ≠ [] ∧
    (ConvertBusToNetListItems env n self items).status = BusStatus.unfinished := by
  have hB : env.IsBusLabel self.m_Label = true := by simp [BusEnv.IsBusLabel, hG]
  have hG2 : busGroupOf env self.m_Label = some (group_name, members) := by
    simp [busGroupOf, hA, hG]
  have hk := busTurns_keeps_self_alias env (if group_name ≠ "" then group_name ++ "." else "")
    al alias_members hV hAl hSelf n
    { self := { self with m_Type := memberType }, aNetListItems := items,
      bus_contents := members, member_offset := 0, self_set := false } hIn
  have hne := List.ne_nil_of_mem hk
  refine ⟨hne, ?_⟩
  rw [convert_group env n self items memberType group_name members hB hT hG2,
    busLoop_eq_busTurns]
  exact if_neg hne

/-- C26, amended, on the group `{A AL}` with the alias `AL` of members `X` and `AL`:
a member is left to visit after 1000 turns, and the call is unfinished. -/
theorem C26_self_referential_alias_never_ends_witness :
    (busTurns (specEnv [("AL", ["X", "AL"])] 0 0) "" 1000
      { self := { labelObject NETLIST_ITEM.LABEL "{A AL}" with
          m_Type := NETLIST_ITEM.BUSLABELMEMBER },
        aNetListItems := [], bus_contents := ["A", "AL"], member_offset := 0,
        self_set := false }).bus_contents ≠ [] ∧
    (ConvertBusToNetListItems (specEnv [("AL", ["X", "AL"])] 0 0) 1000
      (labelObject NETLIST_ITEM.LABEL "{A AL}") []).status = BusStatus.unfinished :=
  C26_self_referential_alias_never_ends (specEnv [("AL", ["X", "AL"])] 0 0)
    (labelObject NETLIST_ITEM.LABEL "{A AL}") [] NETLIST_ITEM.BUSLABELMEMBER "" "AL"
    ["A", "AL"] ["X", "AL"] (by decide) (by decide) (by decide) (by decide) (by decide)
    (by decide) (by decide) 1000

theorem busMemberType_isMember (t memberType : NETLIST_ITEM)
    (h : busMemberType t = some memberType) :
    memberType = NETLIST_ITEM.HIERBUSLABELMEMBER ∨
      memberType = NETLIST_ITEM.GLOBBUSLABELMEMBER ∨
      memberType = NETLIST_ITEM.SHEETBUSLABELMEMBER ∨
      memberType = NETLIST_ITEM.BUSLABELMEMBER := by
  cases t <;> simp [busMemberType] at h <;> subst h <;> simp

/-- C29: after a call that ended with success the object itself and every record the
call appended are bus label members (`IsLabelBusMemberType`), and a further call on
any of them, whatever its label, is rejected and leaves the record and the list as
they were. -/
theorem C29_members_are_not_expanded_again (env : BusEnv) (fuel fuel2 : Nat)
    (self o : NETLIST_OBJECT) (items app items2 : List NETLIST_OBJECT)
    (hS : (ConvertBusToNetListItems env fuel self items).status = BusStatus.done)
    (hI : (ConvertBusToNetListItems env fuel self items).aNetListItems = items ++ app)
    (hO : o = (ConvertBusToNetListItems env fuel self items).self ∨ o ∈ app) :
    o.IsLabelBusMemberType = true ∧
    ((ConvertBusToNetListItems env fuel2 o items2).status = BusStatus.InvalidBusLabel ∨
      (ConvertBusToNetListItems env fuel2 o items2).status = BusStatus.InvalidBusExpansion) ∧
    (ConvertBusToNetListItems env fuel2 o items2).self = o ∧
    (ConvertBusToNetListItems env fuel2 o items2).aNetListItems = items2 := by
  obtain ⟨_, hT⟩ := convert_accepted env fuel self items (Or.inl hS)
  have hO2 : o.m_Type = (ConvertBusToNetListItems env fuel self items).self.m_Type := by
    rcases hO with rfl | hmem
    · rfl
    · obtain ⟨app2, hI2, hA2⟩ := convert_frame env fuel self items
      have : app = app2 := List.append_cancel_left (hI.symm.trans hI2)
      exact hA2 o (this ▸ hmem)
  have hN : busMemberType o.m_Type = none := by
    rw [hO2]
    exact busMemberType_of_member _ _ hT
  have hM : o.IsLabelBusMemberType = true := by
    have := busMemberType_isMember _ _ hT
    rw [← hO2] at this
    simp only [NETLIST_OBJECT.IsLabelBusMemberType, Bool.or_eq_true, decide_eq_true_eq]
    tauto
  refine ⟨hM, ?_⟩
  cases hB : env.IsBusLabel o.m_Label with
  | false =>
      rw [convert_invalid_label env fuel2 o items2 hB]
      simp
  | true =>
      rw [convert_invalid_expansion env fuel2 o items2 hB hN]
      simp

/-- C29 on `BUS{A[0..1] C}`: the appended record `BUS.C` is a bus label member and a
call on it changes nothing. -/
theorem C29_members_are_not_expanded_again_witness :
    (ConvertBusToNetListItems (specEnv [] 0 0) 2
      (labelObject NETLIST_ITEM.LABEL "BUS{A[0..1] C}") []).status = BusStatus.done ∧
    (ConvertBusToNetListItems (specEnv [] 0 0) 9
      { labelObject NETLIST_ITEM.LABEL "BUS{A[0..1] C}" with
          m_Type := NETLIST_ITEM.BUSLABELMEMBER, m_Label := "BUS.C", m_Member := 3 }
      [labelObject NETLIST_ITEM.PIN "P"]).aNetListItems = [labelObject NETLIST_ITEM.PIN "P"] :=
  ⟨by decide,
   (C29_members_are_not_expanded_again (specEnv [] 0 0) 2 9
      (labelObject NETLIST_ITEM.LABEL "BUS{A[0..1] C}")
      { labelObject NETLIST_ITEM.LABEL "BUS{A[0..1] C}" with
          m_Type := NETLIST_ITEM.BUSLABELMEMBER, m_Label := "BUS.C", m_Member := 3 }
      []
      [{ labelObject NETLIST_ITEM.LABEL "BUS{A[0..1] C}" with
          m_Type := NETLIST_ITEM.BUSLABELMEMBER, m_Label := "BUS.C", m_Member := 3 }]
      [labelObject NETLIST_ITEM.PIN "P"] (by decide) (by decide)
      (Or.inr (by decide))).2.2.2⟩

/-- C30, as stated, fails.  The member number is an `int`: for the member 2147483648
`fillBusVector` appends the record with the label `D2147483648` and the member number
-2147483648.  And with the largest `long` as `aEnd` the loop has no end: the test
`member <= aEnd` holds after any number of turns. -/
theorem C30_member_number_beyond_int :
    fillBusVector (labelObject NETLIST_ITEM.LABEL "D[1..2]") [] "D" 2147483648 2147483648 7 =
      some [{ labelObject NETLIST_ITEM.LABEL "D[1..2]" with
                m_Label := "D2147483648", m_Member := -2147483648 }] ∧
    (∀ turns : Nat,
      fillBusVectorLoop (labelObject NETLIST_ITEM.LABEL "D[1..2]") "D" LONG_MAX turns 0 []
        = none) ∧
    fillBusVector (labelObject NETLIST_ITEM.LABEL "D[1..2]") [] "D" 0 LONG_MAX 7 = none := by
  refine ⟨by decide, ?_, ?_⟩
  · intro turns
    exact fillBusVectorLoop_endless _ _ _ (le_refl _) turns 0 [] (by decide)
  · exact fillBusVector_endless _ _ _ _ _ _ (by decide) (le_refl _)

/-- C30, amended: for `long`s `aBegin` and `aEnd` with `aEnd` below the largest `long`,
`fillBusVector` returns and has appended `aEnd - aBegin + 1` records to the end of the
list when that number is positive and none otherwise, in ascending order of the member;
the `i`-th of them is the calling object with the label `aName` followed by the decimal
text of `aBegin + i` and with the member number that the `int` field takes from
`aBegin + i`, which is `aBegin + i` itself when `aBegin` and `aEnd` are within the range
of `int`; `aOffset` plays no part, whatever the arguments. -/
theorem C30_fill_bus_vector (self : NETLIST_OBJECT) (items : List NETLIST_OBJECT)
    (aName : String) (aBegin aEnd aOffset : Int)
    (hB : -9223372036854775808 ≤ aBegin) (hE : aEnd < LONG_MAX) :
    fillBusVector self items aName aBegin aEnd aOffset =
      some (items ++ (List.range (max 0 (aEnd - aBegin + 1)).toNat).map (fun (i : Nat) =>
        { self with m_Label := aName ++ toString (aBegin + (i : Int)),
                    m_Member := toInt (aBegin + (i : Int)) })) ∧
    (-2147483648 ≤ aBegin → aEnd ≤ 2147483647 →
      fillBusVector self items aName aBegin aEnd aOffset =
        some (items ++ (List.range (max 0 (aEnd - aBegin + 1)).toNat).map (fun (i : Nat) =>
          { self with m_Label := aName ++ toString (aBegin + (i : Int)),
                      m_Member := aBegin + (i : Int) }))) ∧
    (∀ l, fillBusVector self items aName aBegin aEnd aOffset = some l →
      l.length = items.length + (max 0 (aEnd - aBegin + 1)).toNat) ∧
    ∀ (otherBegin otherEnd otherOffset : Int),
      fillBusVector self items aName otherBegin otherEnd otherOffset =
        fillBusVector self items aName otherBegin otherEnd aOffset := by
  have hn : (max 0 (aEnd - aBegin + 1)).toNat = (aEnd + 1 - aBegin).toNat := by
    rcases le_total 0 (aEnd - aBegin + 1) with h | h
    · rw [max_eq_right h]; congr 1; ring
    · rw [max_eq_left h]
      have : aEnd + 1 - aBegin ≤ 0 := by linarith
      simp [Int.toNat_of_nonpos this]
  have h1 : fillBusVector self items aName aBegin aEnd aOffset =
      some (items ++ (List.range (max 0 (aEnd - aBegin + 1)).toNat).map (fun (i : Nat) =>
        { self with m_Label := aName ++ toString (aBegin + (i : Int)),
                    m_Member := toInt (aBegin + (i : Int)) })) := by
    rw [fillBusVector_eq self items aName aBegin aEnd aOffset hB hE, hn]
    rfl
  refine ⟨h1, ?_, ?_, ?_⟩
  · intro hlo hhi
    rw [h1]
    congr 2
    apply List.map_congr_left
    intro i hi
    rw [List.mem_range, hn] at hi
    have : toInt (aBegin + (i : Int)) = aBegin + (i : Int) :=
      toInt_of_range _ (by omega) (by omega)
    rw [this]
  · intro l hl
    rw [h1] at hl
    simp only [Option.some.injEq] at hl
    rw [← hl]
    simp
  · intro otherBegin otherEnd otherOffset
    rfl

/-- C30, amended, on the members 1 to 3 with the name `D`: the records `D1`, `D2`,
`D3` with the member numbers 1, 2, 3 are appended after the object the list held. -/
theorem C30_fill_bus_vector_witness :
    fillBusVector (labelObject NETLIST_ITEM.LABEL "D[1..3]") [labelObject NETLIST_ITEM.PIN "P"]
        "D" 1 3 0 =
      some [labelObject NETLIST_ITEM.PIN "P",
        { labelObject NETLIST_ITEM.LABEL "D[1..3]" with m_Label := "D1", m_Member := 1 },
        { labelObject NETLIST_ITEM.LABEL "D[1..3]" with m_Label := "D2", m_Member := 2 },
        { labelObject NETLIST_ITEM.LABEL "D[1..3]" with m_Label := "D3", m_Member := 3 }] :=
  ((C30_fill_bus_vector (labelObject NETLIST_ITEM.LABEL "D[1..3]")
    [labelObject NETLIST_ITEM.PIN "P"] "D" 1 3 0 (by decide) (by decide)).2.1
      (by decide) (by decide)).trans (by decide)

end Netlist
